import Mathlib

/-!
Verification of the Metaphor-agents repository core:
the combined rate limiter (src/rate_limiter.py), the resilient JSON
extractor (src/json_utils.py) and the two-stage pipeline
(src/metaphor_analyzer.py), shallowly embedded in Lean.

Conventions of the embedding:
* Python strings are `String` / `List Char`; Python `None` returned by a
  function typed `Optional[...]` is `Option.none`.
* The Python standard library collaborator `json.loads` / `json.dumps` is
  modelled by an executable recursive-descent parser `json_loads` and a
  serializer `dumpChars` over a JSON syntax tree `Json`.  JSON numbers are
  modelled as integers (float literals are out of scope of every claim),
  and the serializer writes compact separators and escapes the common
  control characters, matching `json.dumps` up to the exact escape set.
* Wall-clock instants are integers (seconds); `datetime.now()` becomes an
  explicit parameter, `time.sleep` becomes arithmetic on the instant at
  which a call returns.
-/

namespace MetaphorAgents

/-! ### JSON values (the objects `json.loads` produces / `json.dumps` consumes) -/

inductive Json where
  | null : Json
  | bool : Bool → Json
  | num : Int → Json
  | str : String → Json
  | arr : List Json → Json
  | obj : List (String × Json) → Json

/-- Whitespace as recognised by the JSON grammar (and a faithful enough
model of `str.strip` for the texts the claims are about). -/
def isWs (c : Char) : Bool :=
  c = ' ' || c = '\t' || c = '\n' || c = '\r'

/-- Model of Python `str.strip()`: drop whitespace from both ends. -/
def pyStrip (cs : List Char) : List Char :=
  ((cs.dropWhile isWs).reverse.dropWhile isWs).reverse

def pyStripS (s : String) : String := String.mk (pyStrip s.data)

/-! ### Serializer (model of `json.dumps`) -/

/-- Decimal digits of a natural number, most significant first. -/
def natDigits (n : Nat) : List Char :=
  if h : n < 10 then [Char.ofNat (48 + n)]
  else natDigits (n / 10) ++ [Char.ofNat (48 + n % 10)]
  termination_by n
  decreasing_by exact Nat.div_lt_self (by omega) (by omega)

def intChars (n : Int) : List Char :=
  if n < 0 then '-' :: natDigits n.natAbs else natDigits n.toNat

/-- Escape one character of a JSON string the way `json.dumps` does for
the characters that occur in this development. -/
def escChar (c : Char) : List Char :=
  if c = '"' then ['\\', '"']
  else if c = '\\' then ['\\', '\\']
  else if c = '\n' then ['\\', 'n']
  else if c = '\t' then ['\\', 't']
  else if c = '\r' then ['\\', 'r']
  else [c]

def escChars : List Char → List Char
  | [] => []
  | c :: cs => escChar c ++ escChars cs

mutual
/-- Model of `json.dumps` (compact separators) producing a character list. -/
def dumpChars : Json → List Char
  | .null => "null".data
  | .bool true => "true".data
  | .bool false => "false".data
  | .num n => intChars n
  | .str s => '"' :: escChars s.data ++ ['"']
  | .arr es => '[' :: dumpElems es ++ [']']
  | .obj kvs => '\x7b' :: dumpMembers kvs ++ ['\x7d']

def dumpElems : List Json → List Char
  | [] => []
  | [v] => dumpChars v
  | v :: w :: vs => dumpChars v ++ ',' :: dumpElems (w :: vs)

def dumpMembers : List (String × Json) → List Char
  | [] => []
  | [(k, v)] => '"' :: escChars k.data ++ '"' :: ':' :: dumpChars v
  | (k, v) :: m :: t =>
      '"' :: escChars k.data ++ '"' :: ':' :: dumpChars v ++ ',' :: dumpMembers (m :: t)
end

/-! ### Parser (model of `json.loads`) -/

def skipWs (cs : List Char) : List Char := cs.dropWhile isWs

def escDecode (e : Char) : Option Char :=
  if e = '"' then some '"'
  else if e = '\\' then some '\\'
  else if e = '/' then some '/'
  else if e = 'n' then some '\n'
  else if e = 't' then some '\t'
  else if e = 'r' then some '\r'
  else if e = 'b' then some (Char.ofNat 8)
  else if e = 'f' then some (Char.ofNat 12)
  else none

def hexVal (c : Char) : Option Nat :=
  if '0' ≤ c ∧ c ≤ '9' then some (c.toNat - 48)
  else if 'a' ≤ c ∧ c ≤ 'f' then some (c.toNat - 87)
  else if 'A' ≤ c ∧ c ≤ 'F' then some (c.toNat - 55)
  else none

/-- Parse the body of a JSON string literal (after the opening quote);
returns the decoded characters and the remainder after the closing quote. -/
def parseStr : List Char → Option (List Char × List Char)
  | [] => none
  | c :: cs =>
    if c = '"' then some ([], cs)
    else if c = '\\' then
      match cs with
      | [] => none
      | e :: cs2 =>
        if e = 'u' then
          match cs2 with
          | h1 :: h2 :: h3 :: h4 :: cs3 =>
            match hexVal h1, hexVal h2, hexVal h3, hexVal h4 with
            | some a, some b, some c4, some d =>
              (parseStr cs3).map
                (fun p => (Char.ofNat (((a * 16 + b) * 16 + c4) * 16 + d) :: p.1, p.2))
            | _, _, _, _ => none
          | _ => none
        else
          match escDecode e with
          | some d => (parseStr cs2).map (fun p => (d :: p.1, p.2))
          | none => none
    else (parseStr cs).map (fun p => (c :: p.1, p.2))

def digitsVal (l : List Char) : Nat :=
  l.foldl (fun a c => a * 10 + (c.toNat - 48)) 0

/-- Parse an (integer) JSON number. -/
def parseNum (cs : List Char) : Option (Int × List Char) :=
  match cs with
  | [] => none
  | c :: rest =>
    if c = '-' then
      match rest with
      | [] => none
      | d :: _ =>
        if d.isDigit then
          some (-(digitsVal (rest.takeWhile Char.isDigit) : Int), rest.dropWhile Char.isDigit)
        else none
    else if c.isDigit then
      some ((digitsVal (cs.takeWhile Char.isDigit) : Int), cs.dropWhile Char.isDigit)
    else none

mutual
def parseValue : Nat → List Char → Option (Json × List Char)
  | 0, _ => none
  | fuel + 1, cs0 =>
    match skipWs cs0 with
    | [] => none
    | c :: rest =>
      if c = 'n' then
        if rest.take 3 = ['u', 'l', 'l'] then some (.null, rest.drop 3) else none
      else if c = 't' then
        if rest.take 3 = ['r', 'u', 'e'] then some (.bool true, rest.drop 3) else none
      else if c = 'f' then
        if rest.take 4 = ['a', 'l', 's', 'e'] then some (.bool false, rest.drop 4) else none
      else if c = '"' then
        (parseStr rest).map (fun p => (.str (String.mk p.1), p.2))
      else if c = '\x7b' then
        match skipWs rest with
        | [] => none
        | d :: r2 =>
          if d = '\x7d' then some (.obj [], r2)
          else (parseMembers fuel (d :: r2)).map (fun p => (.obj p.1, p.2))
      else if c = '[' then
        match skipWs rest with
        | [] => none
        | d :: r2 =>
          if d = ']' then some (.arr [], r2)
          else (parseElems fuel (d :: r2)).map (fun p => (.arr p.1, p.2))
      else if c = '-' || c.isDigit then
        (parseNum (c :: rest)).map (fun p => (.num p.1, p.2))
      else none

def parseElems : Nat → List Char → Option (List Json × List Char)
  | 0, _ => none
  | fuel + 1, cs =>
    match parseValue fuel cs with
    | none => none
    | some (v, rest) =>
      match skipWs rest with
      | [] => none
      | d :: r2 =>
        if d = ',' then (parseElems fuel r2).map (fun p => (v :: p.1, p.2))
        else if d = ']' then some ([v], r2)
        else none

def parseMembers : Nat → List Char → Option (List (String × Json) × List Char)
  | 0, _ => none
  | fuel + 1, cs =>
    match skipWs cs with
    | [] => none
    | c :: rest =>
      if c = '"' then
        match parseStr rest with
        | none => none
        | some (k, r2) =>
          match skipWs r2 with
          | [] => none
          | d :: r3 =>
            if d = ':' then
              match parseValue fuel r3 with
              | none => none
              | some (v, r4) =>
                match skipWs r4 with
                | [] => none
                | e :: r5 =>
                  if e = ',' then
                    (parseMembers fuel r5).map (fun p => ((String.mk k, v) :: p.1, p.2))
                  else if e = '\x7d' then some ([(String.mk k, v)], r5)
                  else none
            else none
      else none
end

/-- Model of `json.loads`: parse the whole text (surrounding whitespace
allowed), failing if anything but whitespace follows the value. -/
def json_loads (cs : List Char) : Option Json :=
  match parseValue (2 * cs.length + 2) cs with
  | some (v, rest) => if skipWs rest = [] then some v else none
  | none => none

/-! ### The resilient JSON extractor (src/json_utils.py) -/

/-- `isPre pat cs`: does `cs` start with `pat`? -/
def isPre : List Char → List Char → Bool
  | [], _ => true
  | _ :: _, [] => false
  | p :: ps, c :: cs => p = c && isPre ps cs

/-- Model of Python `str.find(pat)`: index of the first occurrence. -/
def findSub (pat : List Char) : List Char → Option Nat
  | [] => if pat.isEmpty then some 0 else none
  | c :: cs => if isPre pat (c :: cs) then some 0 else (findSub pat cs).map (· + 1)

/-- The characters of the substring `'```json'`. -/
def fenceJson : List Char := ['\x60', '\x60', '\x60', 'j', 's', 'o', 'n']

/-- The characters of the substring `'```'`. -/
def fence3 : List Char := ['\x60', '\x60', '\x60']

/-- The brace-depth scan of strategy 3 of `extract_json_from_response`
(lines 35-44): starting depth `depth`, return the relative index of the
`'\x7d'` at which the depth first returns to zero, `none` if it never does. -/
def braceEnd : List Char → Int → Option Nat
  | [], _ => none
  | c :: cs, depth =>
    if c = '\x7b' then (braceEnd cs (depth + 1)).map (· + 1)
    else if c = '\x7d' then
      if depth - 1 = 0 then some 0 else (braceEnd cs (depth - 1)).map (· + 1)
    else (braceEnd cs depth).map (· + 1)

/-- A successfully parsed value as returned to the Python caller: the JSON
value `null` parses to the Python object `None`, which at the extractor's
return type is indistinguishable from the `None` meaning failure. -/
def pyOpt : Json → Option Json
  | .null => none
  | v => some v

/-- Strategy 1 (lines 13-17): parse the whole stripped text directly.
`some r` means the Python function returned `r`; `none` means the
`JSONDecodeError` was swallowed and the next strategy runs. -/
def tryDirect (cs : List Char) : Option (Option Json) :=
  match json_loads (pyStrip cs) with
  | some v => some (pyOpt v)
  | none => none

/-- Strategy 2 (lines 19-28): content between a `'```json'` opening fence
and the next `'```'`. -/
def tryFence (cs : List Char) : Option (Option Json) :=
  if (findSub fenceJson cs).isSome && (findSub fence3 cs).isSome then
    match findSub fenceJson cs with
    | none => none
    | some idx =>
      match findSub fence3 (cs.drop (idx + 7)) with
      | none => none
      | some j =>
        match json_loads (pyStrip ((cs.drop (idx + 7)).take j)) with
        | some v => some (pyOpt v)
        | none => none
  else none

/-- Strategy 3 (lines 30-50): first `'\x7b'`, then naive brace counting. -/
def tryBraces (cs : List Char) : Option (Option Json) :=
  match findSub ['\x7b'] cs with
  | none => none
  | some start =>
    match braceEnd (cs.drop start) 0 with
    | none => none
    | some i =>
      match json_loads ((cs.drop start).take (i + 1)) with
      | some v => some (pyOpt v)
      | none => none

/-- Model of `extract_json_from_response`: the three strategies in order,
`none` when all fail (and also when a strategy successfully parses the
JSON value `null`, which Python returns as the same object `None`). -/
def extract_json_from_response (cs : List Char) : Option Json :=
  match tryDirect cs with
  | some r => r
  | none =>
    match tryFence cs with
    | some r => r
    | none =>
      match tryBraces cs with
      | some r => r
      | none => none

/-- Model of `clean_and_parse_json`: first component is the returned
value, second is the bounded raw-text preview logged on failure
(`cleaned[:200]`, line 68). -/
def clean_and_parse_json (s : String) : Option Json × Option String :=
  let cleaned := pyStrip s.data
  match extract_json_from_response cleaned with
  | none => (none, some (String.mk (cleaned.take 200)))
  | some v => (some v, none)

/-! ### The combined rate limiter (src/rate_limiter.py)

Wall-clock instants are integers (seconds since the epoch); `datetime.now()`
becomes the explicit parameter `now` of each call, and because the
`time.sleep` on line 83 happens while the lock is held, a call that sleeps
returns at `now + wait_time + 1`, and the next call's `now` can be no
earlier than that. -/

def INDIVIDUAL_rpm_20 : ℕ := 15
def INDIVIDUAL_rpm_25 : ℕ := 10
def INDIVIDUAL_rpd_20 : ℕ := 200
def INDIVIDUAL_rpd_25 : ℕ := 250
def INDIVIDUAL_tpm_20 : ℕ := 1000000
def INDIVIDUAL_tpm_25 : ℕ := 250000

/-- `COMBINED_LIMITS['rpm']` (line 26): the most restrictive rpm. -/
def COMBINED_rpm : ℕ := min INDIVIDUAL_rpm_20 INDIVIDUAL_rpm_25

/-- `COMBINED_LIMITS['rpd']` (line 30): the most restrictive rpd. -/
def COMBINED_rpd : ℕ := min INDIVIDUAL_rpd_20 INDIVIDUAL_rpd_25

/-- `COMBINED_LIMITS['tpm']` (line 28), informational only. -/
def COMBINED_tpm : ℕ := min INDIVIDUAL_tpm_20 INDIVIDUAL_tpm_25

/-- `now.replace(hour=0, minute=0, second=0)`: the midnight starting the
day of `now` (sub-second structure not modelled). -/
def startOfDay (t : ℤ) : ℤ := 86400 * Int.fdiv t 86400

/-- The mutable state of a `RateLimiter` instance. -/
structure RLState where
  request_times : List ℤ
  daily_requests : ℕ
  daily_reset_time : ℤ
  m20 : ℕ
  m25 : ℕ
deriving DecidableEq

/-- State after `RateLimiter.__init__` at instant `t0`. -/
def initRL (t0 : ℤ) : RLState :=
  ⟨[], 0, startOfDay t0 + 86400, 0, 0⟩

/-- Outcome of one `wait_if_needed` call: admission with the post-call
state and the instant at which the call returns, or the daily-quota
exception carrying the scheduled reset instant. -/
inductive RLResult where
  | admitted (s : RLState) (ret : ℤ)
  | quotaExhausted (s : RLState) (resetAt : ℤ)
deriving DecidableEq

def RLResult.state : RLResult → RLState
  | .admitted s _ => s
  | .quotaExhausted s _ => s

/-- The daily reset step (lines 57-61): performed when the current instant
is at or past the stored reset instant. -/
def resetIfDue (s : RLState) (now : ℤ) : RLState :=
  if s.daily_reset_time ≤ now then
    { s with daily_requests := 0, daily_reset_time := startOfDay now + 86400,
             m20 := 0, m25 := 0 }
  else s

/-- Model of `RateLimiter.wait_if_needed` (lines 51-96) called at instant
`now` for model identity `model_name`. -/
def wait_if_needed (s : RLState) (now : ℤ) (model_name : String) : RLResult :=
  -- daily reset (lines 57-61)
  let s1 := resetIfDue s now
  -- daily combined limit (lines 64-70)
  if COMBINED_rpd ≤ s1.daily_requests then
    .quotaExhausted s1 s1.daily_reset_time
  else
    -- clean requests older than one minute (lines 73-75)
    let pruned := s1.request_times.dropWhile (fun e => e < now - 60)
    -- combined per-minute limit (lines 78-83)
    let ret :=
      if COMBINED_rpm ≤ pruned.length then
        match pruned with
        | [] => now
        | h :: _ =>
          let wait := 60 - (now - h)
          if 0 < wait then now + wait + 1 else now
      else now
    -- register the new request (lines 86-91); note that the appended
    -- timestamp is the `now` captured before any sleep
    .admitted
      { s1 with
        request_times := pruned ++ [now],
        daily_requests := s1.daily_requests + 1,
        m20 := if model_name = "gemini-2.0-flash" then s1.m20 + 1 else s1.m20,
        m25 := if model_name = "gemini-2.5-flash" then s1.m25 + 1 else s1.m25 }
      ret

/-- Run a schedule of calls `(instant, model identity)` starting from state
`s`, where `last` is the instant at which the previous call returned.
Returns the final state and return instant, `none` if the schedule is
invalid (a call earlier than the previous return, which the in-lock sleep
makes impossible) or a call raised the daily-quota exception. -/
def runRL : RLState → ℤ → List (ℤ × String) → Option (RLState × ℤ)
  | s, last, [] => some (s, last)
  | s, last, (t, m) :: rest =>
    if t < last then none
    else
      match wait_if_needed s t m with
      | .admitted s' r => runRL s' r rest
      | .quotaExhausted _ _ => none

/-- Does this call hit the exact-boundary race: a full pruned window whose
oldest timestamp is exactly 60 seconds old (computed wait of exactly 0)? -/
def boundaryHit (s : RLState) (now : ℤ) : Bool :=
  let pruned := (resetIfDue s now).request_times.dropWhile (fun e => e < now - 60)
  decide (COMBINED_rpm ≤ pruned.length) &&
    match pruned with
    | [] => false
    | h :: _ => decide (h = now - 60)

/-- `runRL` restricted to schedules that never hit the exact boundary. -/
def runRLStrict : RLState → ℤ → List (ℤ × String) → Option (RLState × ℤ)
  | s, last, [] => some (s, last)
  | s, last, (t, m) :: rest =>
    if t < last ∨ boundaryHit s t then none
    else
      match wait_if_needed s t m with
      | .admitted s' r => runRLStrict s' r rest
      | .quotaExhausted _ _ => none

/-- The number of recorded timestamps lying within the trailing 60-second
window ending at instant `r` (the complement of the pruning predicate on
line 74). -/
def windowCount (s : RLState) (r : ℤ) : ℕ :=
  s.request_times.countP (fun e => decide (r - 60 ≤ e))

/-! ### The two-stage pipeline (src/metaphor_analyzer.py)

The model-invocation collaborator (`safe_gemini_request`) is a parameter:
`.ok text` is a response whose `.text` is `text`, `.error msg` a raised
transport error.  The combined usage read on line 82 is the parameter
`rpm_used`.  The result dictionary becomes a structure of `Option` fields
(a key absent from the returned dict is `none`).  Exceptions raised by the
result-printing code inside the `try` blocks (missing `'text'` /
`'context'` keys, iterating a non-list) are caught by the generic
`except` handlers and so also end in the error returns; their
interpreter-generated messages are modelled by fixed strings. -/

/-- Python truthiness of a JSON-decoded value. -/
def truthy : Json → Bool
  | .null => false
  | .bool b => b
  | .num n => decide (n ≠ 0)
  | .str s => !s.isEmpty
  | .arr l => !l.isEmpty
  | .obj l => !l.isEmpty

/-- Python `len()` of a JSON-decoded value (`none` = `TypeError`). -/
def pyLen : Json → Option ℕ
  | .str s => some s.length
  | .arr l => some l.length
  | .obj l => some l.length
  | _ => none

/-- Lookup in a decoded JSON object; with duplicate keys the last binding
wins, as in a Python dict built by `json.loads`. -/
def objGet (key : String) : List (String × Json) → Option Json
  | [] => none
  | (k, v) :: t =>
    match objGet key t with
    | some w => some w
    | none => if k = key then some v else none

/-- Can the stage-1 candidate-printing loop (lines 64-65) print this item
without raising (`candidate['text']` must succeed)? -/
def candItemOk : Json → Bool
  | .obj kvs => (objGet "text" kvs).isSome
  | _ => false

/-- Can the stage-2 metaphor-printing loop (lines 118-121) print this item
without raising (`metaphor['text']`, `len(metaphor['context'])`, slicing
and `+ "..."` must all succeed)? -/
def metItemOk : Json → Bool
  | .obj kvs =>
    (objGet "text" kvs).isSome &&
      (match objGet "context" kvs with
       | some (.str _) => true
       | some (.arr l) => decide (l.length ≤ 100)
       | _ => false)
  | _ => false

/-- A response from the model-invocation collaborator: raw text, or a
raised transport error. -/
abbrev StageResponse := Except String String

/-- The dictionary returned by `analyze_text`, one `Option` field per
possible key. -/
structure AnalysisResult where
  agent1_model : Option String := none
  agent2_model : Option String := none
  candidates : Option Json := none
  final_metaphors : Option Json := none
  agent1_count : Option ℕ := none
  agent2_count : Option ℕ := none
  rejected_count : Option ℤ := none
  error : Option String := none
  success : Bool

/-- What one `analyze_text` run did: its returned dictionary, whether the
stage-2 request was issued, and the inter-stage pause in seconds (`none`
when the pause was never reached). -/
structure AnalysisTrace where
  result : AnalysisResult
  stage2_called : Bool
  pause : Option ℤ

/-- Stand-in for an interpreter-generated exception message reaching the
stage-1 `except` handler (line 67). -/
def agent1RuntimeError : String := "Agent 1 error: <runtime exception>"

/-- Stand-in for an interpreter-generated exception message reaching the
stage-2 `except` handler (line 135). -/
def agent2RuntimeError : String := "Agent 2 error: <runtime exception>"

/-- Stage 2 and result assembly (lines 81-141), reached with the
non-empty, printable candidate list `items`. -/
def analyzeStage2 (items : List Json) (stage2 : StageResponse) (rpm_used : ℕ) :
    AnalysisTrace :=
  -- intelligent pause (lines 82-85)
  let pause : ℤ := max 6 (60 - (rpm_used : ℤ))
  match stage2 with
  | .error e =>
    ⟨{ candidates := some (.arr items), error := some ("Agent 2 error: " ++ e),
       success := false }, true, some pause⟩
  | .ok raw2 =>
    match (clean_and_parse_json (pyStripS raw2)).1 with
    | none =>
      ⟨{ candidates := some (.arr items), error := some "Agent 2 JSON parsing failed",
         success := false }, true, some pause⟩
    | some filtered_data =>
      match filtered_data with
      | .obj kvs2 =>
        let final_metaphors := (objGet "metaphors" kvs2).getD (.arr [])
        match pyLen final_metaphors with
        | none =>  -- len() on line 111 raised
          ⟨{ candidates := some (.arr items), error := some agent2RuntimeError,
             success := false }, true, some pause⟩
        | some lenF =>
          let rejected : ℤ := (items.length : ℤ) - (lenF : ℤ)
          let done : AnalysisTrace :=
            ⟨{ agent1_model := some "gemini-2.0-flash",
               agent2_model := some "gemini-2.5-flash",
               candidates := some (.arr items),
               final_metaphors := some final_metaphors,
               agent1_count := some items.length,
               agent2_count := some lenF,
               rejected_count := some rejected,
               error := none, success := true }, true, some pause⟩
          if truthy final_metaphors then
            match final_metaphors with
            | .arr ms =>
              if ms.all metItemOk then done
              else  -- printing loop raised
                ⟨{ candidates := some (.arr items), error := some agent2RuntimeError,
                   success := false }, true, some pause⟩
            | _ =>  -- iterating a non-list raised
              ⟨{ candidates := some (.arr items), error := some agent2RuntimeError,
                 success := false }, true, some pause⟩
          else done
      | _ =>  -- `.get` on a non-dict raised AttributeError (line 110)
        ⟨{ candidates := some (.arr items), error := some agent2RuntimeError,
           success := false }, true, some pause⟩

/-- Model of `MetaphorAnalyzer.analyze_text` (lines 23-141). -/
def analyze_text (stage1 stage2 : StageResponse) (rpm_used : ℕ) : AnalysisTrace :=
  match stage1 with
  | .error e =>
    ⟨{ success := false, error := some ("Agent 1 error: " ++ e) }, false, none⟩
  | .ok raw1 =>
    let result1 := pyStripS raw1          -- line 52
    match (clean_and_parse_json result1).1 with
    | none =>
      ⟨{ success := false, error := some "Agent 1 JSON parsing failed" }, false, none⟩
    | some candidates_data =>
      match candidates_data with
      | .obj kvs =>
        let candidates := (objGet "candidates" kvs).getD (.arr [])
        match pyLen candidates with
        | none =>  -- len() on line 61 raised
          ⟨{ success := false, error := some agent1RuntimeError }, false, none⟩
        | some _ =>
          if truthy candidates then
            match candidates with
            | .arr items =>
              if items.all candItemOk then analyzeStage2 items stage2 rpm_used
              else  -- printing loop raised
                ⟨{ success := false, error := some agent1RuntimeError }, false, none⟩
            | _ =>  -- iterating a non-list raised
              ⟨{ success := false, error := some agent1RuntimeError }, false, none⟩
          else  -- empty-candidates short circuit (lines 71-79)
            ⟨{ candidates := some (.arr []), final_metaphors := some (.arr []),
               agent1_count := some 0, agent2_count := some 0,
               success := true }, false, none⟩
      | _ =>  -- `.get` on a non-dict raised AttributeError (line 59)
        ⟨{ success := false, error := some agent1RuntimeError }, false, none⟩

/-- The pruned rolling window a call at instant `now` works with. -/
def prunedOf (s : RLState) (now : ℤ) : List ℤ :=
  (resetIfDue s now).request_times.dropWhile (fun e => e < now - 60)

/-- The instant at which an admitted call at instant `now` returns
(after the in-lock sleep of lines 78-83, if any). -/
def retOf (s : RLState) (now : ℤ) : ℤ :=
  if COMBINED_rpm ≤ (prunedOf s now).length then
    match prunedOf s now with
    | [] => now
    | h :: _ => if 0 < 60 - (now - h) then now + (60 - (now - h)) + 1 else now
  else now

/-- Invariant tying a limiter state to the instant `r` at which the last
call returned: the window is sorted, contains no future instants, and
holds at most `COMBINED_rpm` entries inside the trailing 60 seconds. -/
def RLinv (s : RLState) (r : ℤ) : Prop :=
  s.request_times.Pairwise (· ≤ ·) ∧
  (∀ e ∈ s.request_times, e ≤ r) ∧
  windowCount s r ≤ COMBINED_rpm

/-- A sequential schedule of twelve admitted calls that defeats the
per-minute ceiling: ten calls in the first second, then two calls at
instant 60, where the oldest window entry is exactly 60 seconds old, so
the computed wait is exactly 0 and line 83's sleep is skipped. -/
def c1Sched : List (ℤ × String) :=
  ((0 : ℤ), "gemini-2.0-flash") :: List.replicate 9 ((1 : ℤ), "gemini-2.0-flash") ++
    [((60 : ℤ), "gemini-2.5-flash"), ((60 : ℤ), "gemini-2.5-flash")]

/-- A schedule on which the first observation of an instant past the
stored reset instant happens more than 24 hours after it. -/
def c9Sched : List (ℤ × String) :=
  [((10 : ℤ), "gemini-2.5-flash"), ((172900 : ℤ), "gemini-2.5-flash")]

/-- A stage-1 response carrying one printable candidate. -/
def c3Stage1 : String := "\x7b\"candidates\": [\x7b\"text\": \"a\"\x7d]\x7d"

/-- A stage-2 response approving two of four candidates. -/
def c6Stage2 : String :=
  "\x7b\"metaphors\": [\x7b\"text\": \"a\", \"context\": \"x\"\x7d, \x7b\"text\": \"b\", \"context\": \"y\"\x7d]\x7d"

/-- A stage-1 response carrying four printable candidates. -/
def c6Stage1 : String :=
  "\x7b\"candidates\": [\x7b\"text\": \"a\"\x7d, \x7b\"text\": \"b\"\x7d, \x7b\"text\": \"c\"\x7d, \x7b\"text\": \"d\"\x7d]\x7d"

/-- A continuation that cannot extend a number literal. -/
def numSafe : List Char → Bool
  | [] => true
  | c :: _ => !c.isDigit

def parseValueObj (fuel : ℕ) : List Char → Option (Json × List Char)
  | [] => none
  | d :: r2 =>
    if d = '\x7d' then some (.obj [], r2)
    else (parseMembers fuel (d :: r2)).map (fun p => (.obj p.1, p.2))

def parseValueArr (fuel : ℕ) : List Char → Option (Json × List Char)
  | [] => none
  | d :: r2 =>
    if d = ']' then some (.arr [], r2)
    else (parseElems fuel (d :: r2)).map (fun p => (.arr p.1, p.2))

def parseValueBody (fuel : ℕ) : List Char → Option (Json × List Char)
  | [] => none
  | c :: rest =>
    if c = 'n' then
      if rest.take 3 = ['u', 'l', 'l'] then some (.null, rest.drop 3) else none
    else if c = 't' then
      if rest.take 3 = ['r', 'u', 'e'] then some (.bool true, rest.drop 3) else none
    else if c = 'f' then
      if rest.take 4 = ['a', 'l', 's', 'e'] then some (.bool false, rest.drop 4) else none
    else if c = '"' then
      (parseStr rest).map (fun p => (.str (String.mk p.1), p.2))
    else if c = '\x7b' then parseValueObj fuel (skipWs rest)
    else if c = '[' then parseValueArr fuel (skipWs rest)
    else if c = '-' || c.isDigit then
      (parseNum (c :: rest)).map (fun p => (.num p.1, p.2))
    else none

def parseElemsSep (fuel : ℕ) (v : Json) : List Char → Option (List Json × List Char)
  | [] => none
  | d :: r2 =>
    if d = ',' then (parseElems fuel r2).map (fun p => (v :: p.1, p.2))
    else if d = ']' then some ([v], r2)
    else none

def parseMembersVal (fuel : ℕ) (k : List Char) (v : Json) :
    List Char → Option (List (String × Json) × List Char)
  | [] => none
  | e :: r5 =>
    if e = ',' then
      (parseMembers fuel r5).map (fun p => ((String.mk k, v) :: p.1, p.2))
    else if e = '\x7d' then some ([(String.mk k, v)], r5)
    else none

def parseMembersKey (fuel : ℕ) (k : List Char) :
    List Char → Option (List (String × Json) × List Char)
  | [] => none
  | d :: r3 =>
    if d = ':' then
      match parseValue fuel r3 with
      | none => none
      | some (v, r4) => parseMembersVal fuel k v (skipWs r4)
    else none

def parseMembersBody (fuel : ℕ) : List Char → Option (List (String × Json) × List Char)
  | [] => none
  | c :: rest =>
    if c = '"' then
      match parseStr rest with
      | none => none
      | some (k, r2) => parseMembersKey fuel k (skipWs r2)
    else none

def braceFreeChars (l : List Char) : Bool :=
  l.all (fun c => !(c = '\x7b' || c = '\x7d'))

mutual
/-- No string literal (value or key) inside the value contains a brace
character — the condition under which strategy 3's naive brace counting
finds the true end of the serialized object. -/
def braceFreeJ : Json → Bool
  | .null => true
  | .bool _ => true
  | .num _ => true
  | .str s => braceFreeChars s.data
  | .arr es => braceFreeL es
  | .obj kvs => braceFreeM kvs

def braceFreeL : List Json → Bool
  | [] => true
  | v :: vs => braceFreeJ v && braceFreeL vs

def braceFreeM : List (String × Json) → Bool
  | [] => true
  | (k, v) :: t => braceFreeChars k.data && braceFreeJ v && braceFreeM t
end

/-- Characters that are neither `'\x7b'` nor `'\x7d'`. -/
abbrev nonBrace (c : Char) : Prop := ¬ c = '\x7b' ∧ ¬ c = '\x7d'

/-- The characters of the opening fence `` ```json `` plus newline. -/
def fenceOpen : List Char := ['\x60', '\x60', '\x60', 'j', 's', 'o', 'n', '\n']

/-- The characters of newline plus the closing fence `` ``` ``. -/
def fenceClose : List Char := ['\n', '\x60', '\x60', '\x60']

/-! ### Rate limiter lemmas -/

theorem resetIfDue_request_times (s : RLState) (now : ℤ) :
    (resetIfDue s now).request_times = s.request_times := by
  unfold resetIfDue; split <;> rfl

theorem resetIfDue_daily_le (s : RLState) (now : ℤ) :
    (resetIfDue s now).daily_requests ≤ s.daily_requests := by
  unfold resetIfDue; split <;> simp

theorem wait_if_needed_quota (s : RLState) (now : ℤ) (m : String)
    (hq : COMBINED_rpd ≤ (resetIfDue s now).daily_requests) :
    wait_if_needed s now m = .quotaExhausted (resetIfDue s now) (resetIfDue s now).daily_reset_time := by
  simp only [wait_if_needed, if_pos hq]

theorem wait_if_needed_admits (s : RLState) (now : ℤ) (m : String)
    (hq : ¬ COMBINED_rpd ≤ (resetIfDue s now).daily_requests) :
    wait_if_needed s now m = .admitted
      { resetIfDue s now with
        request_times := prunedOf s now ++ [now],
        daily_requests := (resetIfDue s now).daily_requests + 1,
        m20 := if m = "gemini-2.0-flash" then (resetIfDue s now).m20 + 1
               else (resetIfDue s now).m20,
        m25 := if m = "gemini-2.5-flash" then (resetIfDue s now).m25 + 1
               else (resetIfDue s now).m25 }
      (retOf s now) := by
  simp only [wait_if_needed, if_neg hq, prunedOf, retOf]

/-- Elements surviving the prune of a sorted window are at least the cutoff. -/
theorem sorted_dropWhile_ge {l : List ℤ} {c : ℤ} (hs : l.Pairwise (· ≤ ·)) :
    ∀ e ∈ l.dropWhile (fun x => decide (x < c)), c ≤ e := by
  induction l with
  | nil => simp
  | cons a l ih =>
    rw [List.pairwise_cons] at hs
    by_cases h : a < c
    · rw [List.dropWhile_cons, if_pos (by simpa using h)]
      exact ih hs.2
    · rw [List.dropWhile_cons, if_neg (by simpa using h)]
      intro e he
      rcases List.mem_cons.mp he with rfl | he'
      · omega
      · exact le_trans (by omega) (hs.1 e he')

theorem initRL_inv (t0 : ℤ) : RLinv (initRL t0) t0 := by
  refine ⟨by simp [initRL], by simp [initRL], ?_⟩
  simp [windowCount, initRL]

/-- The per-step preservation of the rolling-window invariant, assuming
the call does not hit the exact-boundary race. -/
theorem step_inv {s : RLState} {t r : ℤ} {m : String} {s' : RLState} {r' : ℤ}
    (hinv : RLinv s r) (hrt : r ≤ t) (hb : boundaryHit s t = false)
    (hstep : wait_if_needed s t m = .admitted s' r') :
    RLinv s' r' ∧ t ≤ r' := by
  by_cases hq : COMBINED_rpd ≤ (resetIfDue s t).daily_requests
  · rw [wait_if_needed_quota s t m hq] at hstep; cases hstep
  rw [wait_if_needed_admits s t m hq] at hstep
  obtain ⟨hs', hr'⟩ : s' = { resetIfDue s t with
        request_times := prunedOf s t ++ [t],
        daily_requests := (resetIfDue s t).daily_requests + 1,
        m20 := if m = "gemini-2.0-flash" then (resetIfDue s t).m20 + 1
               else (resetIfDue s t).m20,
        m25 := if m = "gemini-2.5-flash" then (resetIfDue s t).m25 + 1
               else (resetIfDue s t).m25 } ∧ r' = retOf s t := by
    cases hstep; exact ⟨rfl, rfl⟩
  subst hs' hr'
  have hsub : List.Sublist (prunedOf s t) s.request_times := by
    simpa [prunedOf, resetIfDue_request_times] using
      (List.dropWhile_sublist (l := (resetIfDue s t).request_times)
        (p := fun e => decide (e < t - 60)))
  have hsorted : (prunedOf s t).Pairwise (· ≤ ·) := hinv.1.sublist hsub
  have hmemle : ∀ e ∈ prunedOf s t, e ≤ t := fun e he =>
    le_trans (hinv.2.1 e (hsub.subset he)) hrt
  have hcut : ∀ e ∈ prunedOf s t, t - 60 ≤ e := by
    have := sorted_dropWhile_ge (l := (resetIfDue s t).request_times) (c := t - 60)
      (by rw [resetIfDue_request_times]; exact hinv.1)
    intro e he
    exact this e (by simpa [prunedOf] using he)
  have hlen : (prunedOf s t).length ≤ COMBINED_rpm := by
    have h1 : (prunedOf s t).countP (fun e => decide (r - 60 ≤ e)) =
        (prunedOf s t).length :=
      List.countP_eq_length.mpr (fun e he => by
        have := hcut e he; simp; omega)
    calc (prunedOf s t).length
        = (prunedOf s t).countP (fun e => decide (r - 60 ≤ e)) := h1.symm
      _ ≤ s.request_times.countP (fun e => decide (r - 60 ≤ e)) := hsub.countP_le _
      _ ≤ COMBINED_rpm := hinv.2.2
  -- the return instant
  by_cases hfull : COMBINED_rpm ≤ (prunedOf s t).length
  · -- the window is full: the invariant needs the boundary hypothesis
    have hlen' : (prunedOf s t).length = COMBINED_rpm := le_antisymm hlen hfull
    obtain ⟨h, tl, hp⟩ : ∃ h tl, prunedOf s t = h :: tl := by
      cases hpr : prunedOf s t with
      | nil => rw [hpr] at hlen'; simp [COMBINED_rpm, INDIVIDUAL_rpm_20, INDIVIDUAL_rpm_25] at hlen'
      | cons h tl => exact ⟨h, tl, rfl⟩
    have hhem : h ∈ prunedOf s t := by rw [hp]; exact List.mem_cons_self h tl
    have hne : h ≠ t - 60 := by
      have hbe : (decide (COMBINED_rpm ≤ (prunedOf s t).length) &&
          (match prunedOf s t with
           | [] => false
           | h :: _ => decide (h = t - 60))) = false := hb
      rw [hp] at hbe
      have hd : decide (COMBINED_rpm ≤ (h :: tl).length) = true := by
        rw [← hp]; exact decide_eq_true hfull
      rw [hd] at hbe
      simpa using hbe
    have hgt : t - 60 < h := lt_of_le_of_ne (hcut h hhem) (Ne.symm hne)
    have hwait : (0 : ℤ) < 60 - (t - h) := by omega
    have hret : retOf s t = h + 61 := by
      rw [retOf, if_pos hfull, hp]
      show (if 0 < 60 - (t - h) then t + (60 - (t - h)) + 1 else t) = h + 61
      rw [if_pos hwait]; omega
    rw [hret]
    refine ⟨⟨?_, ?_, ?_⟩, by omega⟩
    · rw [List.pairwise_append]
      exact ⟨hsorted, by simp, fun a ha b hb' => by
        rw [List.mem_singleton] at hb'; subst hb'; exact hmemle a ha⟩
    · intro e he
      rcases List.mem_append.mp he with he | he
      · have := hmemle e he; omega
      · rw [List.mem_singleton] at he; omega
    · show List.countP _ (prunedOf s t ++ [t]) ≤ _
      rw [hp]
      have htail : tl.countP (fun e => decide (h + 61 - 60 ≤ e)) ≤ tl.length :=
        List.countP_le_length _
      have htl_len : tl.length + 1 = COMBINED_rpm := by
        rw [hp] at hlen'; simpa using hlen'
      have hph : (decide (h + 61 - 60 ≤ h) : Bool) = false := by
        rw [decide_eq_false_iff_not]; omega
      simp only [List.cons_append, List.countP_cons, List.countP_append,
        List.countP_nil, hph, Bool.false_eq_true, if_false]
      split_ifs <;> omega
  · -- room in the window: no sleep, count grows by at most one
    have hret : retOf s t = t := by rw [retOf, if_neg hfull]
    rw [hret]
    refine ⟨⟨?_, ?_, ?_⟩, le_refl t⟩
    · rw [List.pairwise_append]
      exact ⟨hsorted, by simp, fun a ha b hb' => by
        rw [List.mem_singleton] at hb'; subst hb'; exact hmemle a ha⟩
    · intro e he
      rcases List.mem_append.mp he with he | he
      · exact hmemle e he
      · rw [List.mem_singleton] at he; omega
    · show List.countP _ (prunedOf s t ++ [t]) ≤ _
      have h1 : (prunedOf s t).countP (fun e => decide (t - 60 ≤ e)) ≤
          (prunedOf s t).length := List.countP_le_length _
      simp only [List.countP_append, List.countP_cons, List.countP_nil]
      split_ifs <;> omega

/-- Runs that never hit the boundary keep the invariant. -/
theorem runRLStrict_inv : ∀ (sched : List (ℤ × String)) (s : RLState) (r : ℤ)
    (s2 : RLState) (r2 : ℤ), RLinv s r →
    runRLStrict s r sched = some (s2, r2) → RLinv s2 r2
  | [], s, r, s2, r2, hinv, hrun => by
    simp [runRLStrict] at hrun
    rw [← hrun.1, ← hrun.2]; exact hinv
  | (t, m) :: rest, s, r, s2, r2, hinv, hrun => by
    rw [runRLStrict] at hrun
    split at hrun
    · cases hrun
    · rename_i hcond
      push_neg at hcond
      split at hrun
      · rename_i s' r' hstep
        have h := step_inv hinv (by omega) (by simpa using hcond.2) hstep
        exact runRLStrict_inv rest s' r' s2 r2 h.1 hrun
      · cases hrun

/-! ### Claims C1, C2, C9 -/

/-- Claim C1, counterexample: after the valid sequential schedule
`c1Sched` of successful admissions, twelve recorded timestamps lie within
the trailing 60-second window ending at the return instant, exceeding the
combined per-minute ceiling of 10.  The claim as stated is therefore
false: when the pruned window is full and its oldest entry is exactly 60
seconds old, `wait_if_needed` computes `wait_time = 0`, skips the sleep,
and admits anyway. -/
theorem C1_counterexample :
    runRL (initRL 0) 0 c1Sched =
      some (⟨[0, 1, 1, 1, 1, 1, 1, 1, 1, 1, 60, 60], 12, 86400, 10, 2⟩, 60) ∧
    COMBINED_rpm <
      windowCount ⟨[0, 1, 1, 1, 1, 1, 1, 1, 1, 1, 60, 60], 12, 86400, 10, 2⟩ 60 := by
  constructor
  · decide
  · decide

/-- Claim C1 (amended): for every sequence of calls to `wait_if_needed`
in which no call observes a full pruned window whose oldest timestamp is
exactly 60 seconds old (a computed wait of exactly zero), immediately
after any call that returns successfully the number of recorded request
timestamps within the trailing 60-second window ending at the current
instant is at most `COMBINED_LIMITS['rpm'] = 10`. -/
theorem C1_window_bound (t0 : ℤ) (sched : List (ℤ × String)) (s : RLState) (r : ℤ)
    (h : runRLStrict (initRL t0) t0 sched = some (s, r)) :
    windowCount s r ≤ COMBINED_rpm :=
  (runRLStrict_inv sched (initRL t0) t0 s r (initRL_inv t0) h).2.2

/-- Witness for `C1_window_bound` at a concrete one-call schedule. -/
theorem C1_window_bound_witness :
    windowCount ⟨[5], 1, 86400, 1, 0⟩ 5 ≤ COMBINED_rpm :=
  C1_window_bound 0 [((5 : ℤ), "gemini-2.0-flash")] ⟨[5], 1, 86400, 1, 0⟩ 5 (by decide)

/-- Claim C2: if at the moment `wait_if_needed` is called the daily
counter has reached `COMBINED_LIMITS['rpd'] = 200` and the current
instant is before the stored reset instant, the call fails immediately
with the daily-quota exception carrying the scheduled reset instant and
leaves the state (rolling window, daily counter, per-model counters)
unchanged; moreover one call never pushes the daily counter above the
ceiling, so the counter never exceeds it. -/
theorem C2_daily_quota (s : RLState) (now : ℤ) (m : String)
    (hd : COMBINED_rpd ≤ s.daily_requests) (ht : now < s.daily_reset_time) :
    wait_if_needed s now m = .quotaExhausted s s.daily_reset_time ∧
    (∀ (s0 : RLState) (n0 : ℤ) (m0 : String), s0.daily_requests ≤ COMBINED_rpd →
      ((wait_if_needed s0 n0 m0).state).daily_requests ≤ COMBINED_rpd) := by
  constructor
  · have hr : resetIfDue s now = s := by rw [resetIfDue, if_neg (by omega)]
    have hq : COMBINED_rpd ≤ (resetIfDue s now).daily_requests := by rw [hr]; exact hd
    rw [wait_if_needed_quota s now m hq, hr]
  · intro s0 n0 m0 h0
    by_cases hq : COMBINED_rpd ≤ (resetIfDue s0 n0).daily_requests
    · rw [wait_if_needed_quota s0 n0 m0 hq]
      exact le_trans (resetIfDue_daily_le s0 n0) h0
    · rw [wait_if_needed_admits s0 n0 m0 hq]
      show (resetIfDue s0 n0).daily_requests + 1 ≤ COMBINED_rpd
      omega

/-- Witness for `C2_daily_quota` at a concrete exhausted state. -/
theorem C2_daily_quota_witness :
    wait_if_needed ⟨[], 200, 86400, 100, 100⟩ 100 "gemini-2.5-flash" =
      .quotaExhausted ⟨[], 200, 86400, 100, 100⟩ 86400 :=
  (C2_daily_quota ⟨[], 200, 86400, 100, 100⟩ 100 "gemini-2.5-flash"
    (by decide) (by decide)).1

/-- Claim C9, counterexample: starting from the freshly initialised
limiter (stored reset instant 86400), the first call observing an instant
at or past the reset instant (here 172900) sets the stored reset instant
to 259200, the midnight following the current instant — not to
86400 + 86400 = 172800 as "advances by 24 hours" states. -/
theorem C9_counterexample :
    (initRL 0).daily_reset_time = 86400 ∧
    runRL (initRL 0) 0 c9Sched = some (⟨[172900], 1, 259200, 0, 1⟩, 172900) ∧
    (259200 : ℤ) ≠ 86400 + 86400 := by
  refine ⟨by decide, by decide, by decide⟩

/-- Claim C9 (amended): the first time `wait_if_needed` observes a
current instant at or past the stored reset instant, it zeroes the daily
counter and both per-model counters (so that after the admission they
read 1 for the admitted call and 0 otherwise) and sets the stored reset
instant to the midnight following the current instant
(`startOfDay now + 86400`); when that observation happens within 24 hours
of the stored reset instant (and the stored instant is midnight-aligned,
as every reachable one is), this equals advancing the stored instant by
exactly 24 hours. -/
theorem C9_reset (s : RLState) (now : ℤ) (m : String)
    (h : s.daily_reset_time ≤ now) :
    wait_if_needed s now m = .admitted
      { request_times := prunedOf s now ++ [now],
        daily_requests := 1,
        daily_reset_time := startOfDay now + 86400,
        m20 := if m = "gemini-2.0-flash" then 1 else 0,
        m25 := if m = "gemini-2.5-flash" then 1 else 0 } (retOf s now) ∧
    (86400 ∣ s.daily_reset_time → now < s.daily_reset_time + 86400 →
      startOfDay now + 86400 = s.daily_reset_time + 86400) := by
  have hreset : resetIfDue s now =
      { s with daily_requests := 0, daily_reset_time := startOfDay now + 86400,
               m20 := 0, m25 := 0 } := by
    rw [resetIfDue, if_pos h]
  constructor
  · have hq : ¬ COMBINED_rpd ≤ (resetIfDue s now).daily_requests := by
      rw [hreset]
      show ¬ COMBINED_rpd ≤ 0
      simp [COMBINED_rpd, INDIVIDUAL_rpd_20, INDIVIDUAL_rpd_25]
    rw [wait_if_needed_admits s now m hq, hreset]
  · rintro ⟨k, hk⟩ h2
    show 86400 * Int.fdiv now 86400 + 86400 = s.daily_reset_time + 86400
    rw [Int.fdiv_eq_ediv _ (by norm_num)]
    omega

/-- Witness for `C9_reset` at a concrete overdue state. -/
theorem C9_reset_witness :
    wait_if_needed ⟨[], 5, 86400, 2, 3⟩ 90000 "gemini-2.0-flash" =
      .admitted ⟨[90000], 1, 172800, 1, 0⟩ 90000 ∧
    (86400 : ℤ) * Int.fdiv 90000 86400 + 86400 = 86400 + 86400 := by
  have h := C9_reset ⟨[], 5, 86400, 2, 3⟩ 90000 "gemini-2.0-flash" (by decide)
  exact ⟨h.1, h.2 ⟨1, by norm_num⟩ (by decide)⟩

/-! ### Pipeline lemmas -/

/-- Every branch of stage 2 is preceded by the same intelligent pause. -/
theorem analyzeStage2_pause (items : List Json) (st2 : StageResponse) (u : ℕ) :
    (analyzeStage2 items st2 u).pause = some (max 6 (60 - (u : ℤ))) := by
  rcases st2 with e | raw2
  · rfl
  · rw [analyzeStage2]
    rcases hp : (clean_and_parse_json (pyStripS raw2)).1 with _ | v
    · rfl
    · rcases v with _ | b | n | s | l | kvs2 <;> try rfl
      show (match pyLen ((objGet "metaphors" kvs2).getD (.arr [])) with
        | none => _ | some lenF => _ : AnalysisTrace).pause = _
      rcases hl : pyLen ((objGet "metaphors" kvs2).getD (.arr [])) with _ | lenF
      · rfl
      · cases htr : truthy ((objGet "metaphors" kvs2).getD (.arr []))
        · simp only [htr, Bool.false_eq_true, if_false]
        · simp only [htr, if_true]
          rcases hv : (objGet "metaphors" kvs2).getD (.arr []) with _ | _ | _ | _ | ms | _ <;>
            try rfl
          split <;> try rfl
          all_goals split <;> rfl

/-- When stage 1 succeeds with a printable non-empty candidate list, the
pipeline proceeds to the cooldown and stage 2. -/
theorem analyze_text_stage1_ok (raw1 : String) (kvs : List (String × Json))
    (items : List Json) (stage2 : StageResponse) (u : ℕ)
    (h1 : (clean_and_parse_json (pyStripS raw1)).1 = some (.obj kvs))
    (h2 : objGet "candidates" kvs = some (.arr items))
    (h3 : items ≠ [])
    (h4 : items.all candItemOk = true) :
    analyze_text (.ok raw1) stage2 u = analyzeStage2 items stage2 u := by
  obtain ⟨a, as, rfl⟩ : ∃ a as, items = a :: as := by
    cases items with
    | nil => exact absurd rfl h3
    | cons a as => exact ⟨a, as, rfl⟩
  simp only [analyze_text, h1, h2, Option.getD_some, pyLen, truthy,
    List.isEmpty_cons, Bool.not_false, if_true, h4]

/-! ### Claims C3, C4, C6, C7 -/

/-- Claim C3, counterexample: with an empty rolling window (usage 0) the
cooldown is 60 seconds, but the configured combined per-minute ceiling is
10, and no choice of `minimum_pause` makes
`max(minimum_pause, per_minute_ceiling − usage)` produce both the
observed 60 (at usage 0) and 6 (at usage 55).  The literal 60 on line 83
of metaphor_analyzer.py is the number of seconds in a minute, not the
configured ceiling. -/
theorem C3_counterexample :
    (analyze_text (.ok c3Stage1) (.error "transport") 0).pause = some 60 ∧
    (analyze_text (.ok c3Stage1) (.error "transport") 55).pause = some 6 ∧
    COMBINED_rpm = 10 ∧
    ¬ ∃ p : ℤ, max p ((COMBINED_rpm : ℤ) - 0) = 60 ∧
               max p ((COMBINED_rpm : ℤ) - 55) = 6 := by
  refine ⟨rfl, rfl, rfl, ?_⟩
  rintro ⟨p, h1, h2⟩
  have h10 : ((COMBINED_rpm : ℕ) : ℤ) = 10 := by
    norm_num [COMBINED_rpm, INDIVIDUAL_rpm_20, INDIVIDUAL_rpm_25]
  rw [h10] at h1 h2
  rcases max_cases p ((10 : ℤ) - 0) with ⟨ha, hb⟩ | ⟨ha, hb⟩ <;>
    rcases max_cases p ((10 : ℤ) - 55) with ⟨hc, hd⟩ | ⟨hc, hd⟩ <;> omega

/-- Claim C3 (amended): when stage 1 yields a non-empty candidate list,
the inter-stage cooldown is `max(6, 60 − rolling_window_usage)` seconds,
where 60 is the fixed number of seconds in a minute (not the configured
per-minute ceiling, which is 10) and 6 is the fixed minimum pause; usage
55 gives `max(6, 5) = 6` seconds and usage 0 gives `max(6, 60) = 60`. -/
theorem C3_cooldown (raw1 : String) (kvs : List (String × Json))
    (items : List Json) (stage2 : StageResponse) (u : ℕ)
    (h1 : (clean_and_parse_json (pyStripS raw1)).1 = some (.obj kvs))
    (h2 : objGet "candidates" kvs = some (.arr items))
    (h3 : items ≠ [])
    (h4 : items.all candItemOk = true) :
    (analyze_text (.ok raw1) stage2 u).pause = some (max 6 (60 - (u : ℤ))) ∧
    max (6 : ℤ) (60 - 55) = 6 ∧ max (6 : ℤ) (60 - 0) = 60 := by
  rw [analyze_text_stage1_ok raw1 kvs items stage2 u h1 h2 h3 h4]
  exact ⟨analyzeStage2_pause items stage2 u, by norm_num, by norm_num⟩

/-- Witness for `C3_cooldown` at a concrete stage-1 response. -/
theorem C3_cooldown_witness :
    (analyze_text (.ok c3Stage1) (.error "transport") 55).pause =
      some (max 6 (60 - (55 : ℕ) : ℤ)) :=
  (C3_cooldown c3Stage1 [("candidates", .arr [.obj [("text", .str "a")]])]
    [.obj [("text", .str "a")]] (.error "transport") 55 rfl rfl
    (by simp) rfl).1

/-- Claim C4 (amended): if stage 1 succeeds and its parsed response has a
missing or empty `candidates` list, `analyze_text` returns the empty
success result — zero candidates, zero approved, `agent1_count = 0`,
`agent2_count = 0`, `success = true` — with **no** `rejected_count` key
(the claim's `rejected_count = 0` does not hold: the key is absent), and
performs neither the cooldown nor a stage-2 call. -/
theorem C4_empty_candidates (raw1 : String) (kvs : List (String × Json))
    (stage2 : StageResponse) (u : ℕ)
    (h1 : (clean_and_parse_json (pyStripS raw1)).1 = some (.obj kvs))
    (h2 : objGet "candidates" kvs = none ∨ objGet "candidates" kvs = some (.arr [])) :
    analyze_text (.ok raw1) stage2 u =
      ⟨{ candidates := some (.arr []), final_metaphors := some (.arr []),
         agent1_count := some 0, agent2_count := some 0,
         rejected_count := none, success := true }, false, none⟩ := by
  have hc : (objGet "candidates" kvs).getD (.arr []) = .arr [] := by
    rcases h2 with h | h <;> rw [h] <;> rfl
  simp only [analyze_text, h1, hc]
  rfl

/-- Witness for `C4_empty_candidates` at a concrete empty response. -/
theorem C4_empty_candidates_witness :
    analyze_text (.ok "\x7b\"candidates\": []\x7d") (.ok "ignored") 7 =
      ⟨{ candidates := some (.arr []), final_metaphors := some (.arr []),
         agent1_count := some 0, agent2_count := some 0,
         rejected_count := none, success := true }, false, none⟩ :=
  C4_empty_candidates "\x7b\"candidates\": []\x7d" [("candidates", .arr [])]
    (.ok "ignored") 7 rfl (Or.inr rfl)

/-- Claim C4, counterexample: on an empty stage-1 candidate list the
returned result satisfies every clause of the claim except
`rejected_count = 0`: the `rejected_count` key is absent from the
returned dictionary (lines 73-79 build it without that key). -/
theorem C4_counterexample :
    (analyze_text (.ok "\x7b\"candidates\": []\x7d") (.ok "ignored") 0).result.success = true ∧
    (analyze_text (.ok "\x7b\"candidates\": []\x7d") (.ok "ignored") 0).result.agent1_count = some 0 ∧
    (analyze_text (.ok "\x7b\"candidates\": []\x7d") (.ok "ignored") 0).result.agent2_count = some 0 ∧
    (analyze_text (.ok "\x7b\"candidates\": []\x7d") (.ok "ignored") 0).stage2_called = false ∧
    (analyze_text (.ok "\x7b\"candidates\": []\x7d") (.ok "ignored") 0).pause = none ∧
    (analyze_text (.ok "\x7b\"candidates\": []\x7d") (.ok "ignored") 0).result.rejected_count ≠
      some 0 := by
  refine ⟨rfl, rfl, rfl, rfl, rfl, ?_⟩
  show (none : Option ℤ) ≠ some 0
  simp

/-- Claim C6: when stage 1 yields a non-empty (printable) candidate list
and stage 2 completes with a response parsing to a `metaphors` list of
(printable) items, the result carries both model identities,
`agent1_count = len(candidates)`, `agent2_count = len(approved)`,
`rejected_count = len(candidates) − len(approved)`, `success = true`, and
the approved list is exactly the list stage 2 returned, in its order. -/
theorem C6_result_assembly (raw1 raw2 : String) (kvs kvs2 : List (String × Json))
    (items ms : List Json) (u : ℕ)
    (h1 : (clean_and_parse_json (pyStripS raw1)).1 = some (.obj kvs))
    (h2 : objGet "candidates" kvs = some (.arr items))
    (h3 : items ≠ [])
    (h4 : items.all candItemOk = true)
    (h5 : (clean_and_parse_json (pyStripS raw2)).1 = some (.obj kvs2))
    (h6 : objGet "metaphors" kvs2 = some (.arr ms))
    (h7 : ms.all metItemOk = true) :
    analyze_text (.ok raw1) (.ok raw2) u =
      ⟨{ agent1_model := some "gemini-2.0-flash",
         agent2_model := some "gemini-2.5-flash",
         candidates := some (.arr items),
         final_metaphors := some (.arr ms),
         agent1_count := some items.length,
         agent2_count := some ms.length,
         rejected_count := some ((items.length : ℤ) - (ms.length : ℤ)),
         error := none, success := true }, true, some (max 6 (60 - (u : ℤ)))⟩ := by
  rw [analyze_text_stage1_ok raw1 kvs items (.ok raw2) u h1 h2 h3 h4]
  cases ms with
  | nil => simp only [analyzeStage2, h5, h6, Option.getD_some]; rfl
  | cons m ms' =>
    simp only [analyzeStage2, h5, h6, Option.getD_some, pyLen, truthy,
      List.isEmpty_cons, Bool.not_false, if_true, h7]

/-- Witness for `C6_result_assembly`: 4 candidates, 2 approved,
`rejected_count = 2`. -/
theorem C6_result_assembly_witness :
    (analyze_text (.ok c6Stage1) (.ok c6Stage2) 3).result.rejected_count = some 2 ∧
    (analyze_text (.ok c6Stage1) (.ok c6Stage2) 3).result.final_metaphors =
      some (.arr [.obj [("text", .str "a"), ("context", .str "x")],
                  .obj [("text", .str "b"), ("context", .str "y")]]) := by
  have h := C6_result_assembly c6Stage1 c6Stage2
    [("candidates", .arr [.obj [("text", .str "a")], .obj [("text", .str "b")],
                          .obj [("text", .str "c")], .obj [("text", .str "d")]])]
    [("metaphors", .arr [.obj [("text", .str "a"), ("context", .str "x")],
                         .obj [("text", .str "b"), ("context", .str "y")]])]
    [.obj [("text", .str "a")], .obj [("text", .str "b")],
     .obj [("text", .str "c")], .obj [("text", .str "d")]]
    [.obj [("text", .str "a"), ("context", .str "x")],
     .obj [("text", .str "b"), ("context", .str "y")]]
    3 rfl rfl (by simp) rfl rfl rfl rfl
  rw [h]
  exact ⟨rfl, rfl⟩

/-- Claim C7: transport errors and unparsable text at stage 1 or stage 2
never escape `analyze_text`: the result has `success = false` and a
populated `error` field, and a stage-2 failure still carries the stage-1
candidates. -/
theorem C7_error_capture :
    (∀ (e : String) (st2 : StageResponse) (u : ℕ),
      (analyze_text (.error e) st2 u).result.success = false ∧
      ((analyze_text (.error e) st2 u).result.error).isSome = true) ∧
    (∀ (raw1 : String) (st2 : StageResponse) (u : ℕ),
      (clean_and_parse_json (pyStripS raw1)).1 = none →
      (analyze_text (.ok raw1) st2 u).result.success = false ∧
      ((analyze_text (.ok raw1) st2 u).result.error).isSome = true) ∧
    (∀ (raw1 : String) (kvs : List (String × Json)) (items : List Json)
       (u : ℕ) (e : String),
      (clean_and_parse_json (pyStripS raw1)).1 = some (.obj kvs) →
      objGet "candidates" kvs = some (.arr items) →
      items ≠ [] → items.all candItemOk = true →
      (analyze_text (.ok raw1) (.error e) u).result.success = false ∧
      ((analyze_text (.ok raw1) (.error e) u).result.error).isSome = true ∧
      (analyze_text (.ok raw1) (.error e) u).result.candidates = some (.arr items)) ∧
    (∀ (raw1 raw2 : String) (kvs : List (String × Json)) (items : List Json) (u : ℕ),
      (clean_and_parse_json (pyStripS raw1)).1 = some (.obj kvs) →
      objGet "candidates" kvs = some (.arr items) →
      items ≠ [] → items.all candItemOk = true →
      (clean_and_parse_json (pyStripS raw2)).1 = none →
      (analyze_text (.ok raw1) (.ok raw2) u).result.success = false ∧
      ((analyze_text (.ok raw1) (.ok raw2) u).result.error).isSome = true ∧
      (analyze_text (.ok raw1) (.ok raw2) u).result.candidates = some (.arr items)) := by
  refine ⟨fun e st2 u => ⟨rfl, rfl⟩, ?_, ?_, ?_⟩
  · intro raw1 st2 u h
    have hr : analyze_text (.ok raw1) st2 u =
        ⟨{ success := false, error := some "Agent 1 JSON parsing failed" },
         false, none⟩ := by
      rw [analyze_text, h]
    rw [hr]
    exact ⟨rfl, rfl⟩
  · intro raw1 kvs items u e h1 h2 h3 h4
    rw [analyze_text_stage1_ok raw1 kvs items (.error e) u h1 h2 h3 h4]
    refine ⟨?_, ?_, ?_⟩ <;> rfl
  · intro raw1 raw2 kvs items u h1 h2 h3 h4 h5
    rw [analyze_text_stage1_ok raw1 kvs items (.ok raw2) u h1 h2 h3 h4]
    have hr : analyzeStage2 items (.ok raw2) u =
        ⟨{ candidates := some (.arr items),
           error := some "Agent 2 JSON parsing failed", success := false },
         true, some (max 6 (60 - (u : ℤ)))⟩ := by
      rw [analyzeStage2, h5]
    rw [hr]
    exact ⟨rfl, rfl, rfl⟩

/-- Witness for `C7_error_capture`, instantiating each failure mode at a
concrete input. -/
theorem C7_error_capture_witness :
    (analyze_text (.error "boom") (.ok "x") 0).result.success = false ∧
    (analyze_text (.ok "not json") (.ok "x") 0).result.success = false ∧
    (analyze_text (.ok c3Stage1) (.error "boom") 0).result.candidates =
      some (.arr [.obj [("text", .str "a")]]) ∧
    (analyze_text (.ok c3Stage1) (.ok "not json") 0).result.candidates =
      some (.arr [.obj [("text", .str "a")]]) := by
  refine ⟨(C7_error_capture.1 "boom" (.ok "x") 0).1,
    (C7_error_capture.2.1 "not json" (.ok "x") 0 rfl).1,
    (C7_error_capture.2.2.1 c3Stage1 [("candidates", .arr [.obj [("text", .str "a")]])]
      [.obj [("text", .str "a")]] 0 "boom" rfl rfl (by simp) rfl).2.2,
    (C7_error_capture.2.2.2 c3Stage1 "not json" [("candidates", .arr [.obj [("text", .str "a")]])]
      [.obj [("text", .str "a")]] 0 rfl rfl (by simp) rfl rfl).2.2⟩

/-! ### Extractor lemmas, part 1: numbers and strings round-trip -/

theorem digit_char_facts (d : ℕ) (h : d < 10) :
    (Char.ofNat (48 + d)).isDigit = true ∧ (Char.ofNat (48 + d)).toNat = 48 + d := by
  interval_cases d <;> exact ⟨by decide, by decide⟩

theorem natDigits_all_digits (n : ℕ) : ∀ c ∈ natDigits n, c.isDigit = true := by
  induction n using Nat.strongRecOn with
  | ind n ih =>
    rw [natDigits]
    split
    · rename_i h
      intro c hc
      rw [List.mem_singleton] at hc
      subst hc
      exact (digit_char_facts n h).1
    · rename_i h
      intro c hc
      rcases List.mem_append.mp hc with hc | hc
      · exact ih (n / 10) (Nat.div_lt_self (by omega) (by omega)) c hc
      · rw [List.mem_singleton] at hc
        subst hc
        exact (digit_char_facts (n % 10) (Nat.mod_lt _ (by omega))).1

theorem natDigits_ne_nil (n : ℕ) : natDigits n ≠ [] := by
  rw [natDigits]
  split
  · simp
  · simp

theorem digitsVal_append_singleton (A : List Char) (c : Char) :
    digitsVal (A ++ [c]) = digitsVal A * 10 + (c.toNat - 48) := by
  simp [digitsVal, List.foldl_append]

theorem digitsVal_natDigits (n : ℕ) : digitsVal (natDigits n) = n := by
  induction n using Nat.strongRecOn with
  | ind n ih =>
    rw [natDigits]
    split
    · rename_i h
      simp [digitsVal, (digit_char_facts n h).2]
    · rename_i h
      rw [digitsVal_append_singleton,
        ih (n / 10) (Nat.div_lt_self (by omega) (by omega)),
        (digit_char_facts (n % 10) (Nat.mod_lt _ (by omega))).2]
      omega

theorem takeWhile_digits (A rest : List Char) (hA : ∀ c ∈ A, c.isDigit = true)
    (hrest : numSafe rest = true) :
    (A ++ rest).takeWhile Char.isDigit = A ∧
    (A ++ rest).dropWhile Char.isDigit = rest := by
  induction A with
  | nil =>
    cases rest with
    | nil => exact ⟨rfl, rfl⟩
    | cons c cs =>
      have : c.isDigit = false := by
        simpa [numSafe] using hrest
      simp [List.takeWhile_cons, List.dropWhile_cons, this]
  | cons a A ih =>
    have ha : a.isDigit = true := hA a (List.mem_cons_self a A)
    have := ih (fun c hc => hA c (List.mem_cons_of_mem a hc))
    simp [List.takeWhile_cons, List.dropWhile_cons, ha, this.1, this.2]

theorem parseNum_dump (n : ℤ) (rest : List Char) (hrest : numSafe rest = true) :
    parseNum (intChars n ++ rest) = some (n, rest) := by
  by_cases hn : n < 0
  · rw [intChars, if_pos hn]
    obtain ⟨d, ds, hds⟩ : ∃ d ds, natDigits n.natAbs = d :: ds := by
      cases h : natDigits n.natAbs with
      | nil => exact absurd h (natDigits_ne_nil _)
      | cons d ds => exact ⟨d, ds, rfl⟩
    have hdig : ∀ c ∈ d :: ds, c.isDigit = true := by
      rw [← hds]; exact natDigits_all_digits n.natAbs
    have hd : d.isDigit = true := hdig d (List.mem_cons_self d ds)
    have htk := takeWhile_digits (d :: ds) rest hdig hrest
    simp only [List.cons_append] at htk
    rw [hds]
    simp only [List.cons_append]
    show (if d.isDigit then
        some (-(digitsVal ((d :: (ds ++ rest)).takeWhile Char.isDigit) : ℤ),
              (d :: (ds ++ rest)).dropWhile Char.isDigit)
      else none) = some (n, rest)
    rw [if_pos hd, htk.1, htk.2, ← hds, digitsVal_natDigits]
    have hval : -((n.natAbs : ℤ)) = n := by omega
    rw [hval]
  · rw [intChars, if_neg hn]
    obtain ⟨d, ds, hds⟩ : ∃ d ds, natDigits n.toNat = d :: ds := by
      cases h : natDigits n.toNat with
      | nil => exact absurd h (natDigits_ne_nil _)
      | cons d ds => exact ⟨d, ds, rfl⟩
    have hdig : ∀ c ∈ d :: ds, c.isDigit = true := by
      rw [← hds]; exact natDigits_all_digits n.toNat
    have hd : d.isDigit = true := hdig d (List.mem_cons_self d ds)
    have hdm : ¬ d = '-' := by
      intro hcon
      rw [hcon] at hd
      exact absurd hd (by decide)
    have htk := takeWhile_digits (d :: ds) rest hdig hrest
    simp only [List.cons_append] at htk
    rw [hds]
    simp only [List.cons_append]
    show (if d = '-' then
        match ds ++ rest with
        | [] => none
        | e :: _ =>
          if e.isDigit then
            some (-(digitsVal ((ds ++ rest).takeWhile Char.isDigit) : ℤ),
                  (ds ++ rest).dropWhile Char.isDigit)
          else none
      else if d.isDigit then
        some ((digitsVal ((d :: (ds ++ rest)).takeWhile Char.isDigit) : ℤ),
              (d :: (ds ++ rest)).dropWhile Char.isDigit)
      else none) = some (n, rest)
    rw [if_neg hdm, if_pos hd, htk.1, htk.2, ← hds, digitsVal_natDigits]
    have hval : ((n.toNat : ℤ)) = n := by omega
    rw [hval]

/-- String-literal escaping round-trips through the parser. -/
theorem parseStr_esc (s : List Char) (rest : List Char) :
    parseStr (escChars s ++ '"' :: rest) = some (s, rest) := by
  induction s with
  | nil =>
    rw [show escChars [] ++ '"' :: rest = '"' :: rest from rfl, parseStr.eq_def]
    rfl
  | cons c cs ih =>
    show parseStr (escChar c ++ escChars cs ++ '"' :: rest) = _
    by_cases h1 : c = '"'
    · subst h1
      rw [show escChar '"' ++ escChars cs ++ '"' :: rest =
        '\\' :: '"' :: (escChars cs ++ '"' :: rest) from rfl, parseStr.eq_def]
      show Option.map (fun p => ('"' :: p.1, p.2))
        (parseStr (escChars cs ++ '"' :: rest)) = _
      rw [ih]
      rfl
    by_cases h2 : c = '\\'
    · subst h2
      rw [show escChar '\\' ++ escChars cs ++ '"' :: rest =
        '\\' :: '\\' :: (escChars cs ++ '"' :: rest) from rfl, parseStr.eq_def]
      show Option.map (fun p => ('\\' :: p.1, p.2))
        (parseStr (escChars cs ++ '"' :: rest)) = _
      rw [ih]
      rfl
    by_cases h3 : c = '\n'
    · subst h3
      rw [show escChar '\n' ++ escChars cs ++ '"' :: rest =
        '\\' :: 'n' :: (escChars cs ++ '"' :: rest) from rfl, parseStr.eq_def]
      show Option.map (fun p => ('\n' :: p.1, p.2))
        (parseStr (escChars cs ++ '"' :: rest)) = _
      rw [ih]
      rfl
    by_cases h4 : c = '\t'
    · subst h4
      rw [show escChar '\t' ++ escChars cs ++ '"' :: rest =
        '\\' :: 't' :: (escChars cs ++ '"' :: rest) from rfl, parseStr.eq_def]
      show Option.map (fun p => ('\t' :: p.1, p.2))
        (parseStr (escChars cs ++ '"' :: rest)) = _
      rw [ih]
      rfl
    by_cases h5 : c = '\r'
    · subst h5
      rw [show escChar '\r' ++ escChars cs ++ '"' :: rest =
        '\\' :: 'r' :: (escChars cs ++ '"' :: rest) from rfl, parseStr.eq_def]
      show Option.map (fun p => ('\r' :: p.1, p.2))
        (parseStr (escChars cs ++ '"' :: rest)) = _
      rw [ih]
      rfl
    · rw [show escChar c ++ escChars cs ++ '"' :: rest =
        escChar c ++ (escChars cs ++ '"' :: rest) from by simp, escChar,
        if_neg h1, if_neg h2, if_neg h3, if_neg h4, if_neg h5]
      rw [show [c] ++ (escChars cs ++ '"' :: rest) =
        c :: (escChars cs ++ '"' :: rest) from rfl, parseStr.eq_def]
      show (if c = '"' then some ([], escChars cs ++ '"' :: rest)
        else if c = '\\' then _
        else Option.map (fun p => (c :: p.1, p.2))
          (parseStr (escChars cs ++ '"' :: rest))) = _
      rw [if_neg h1, if_neg h2, ih]
      rfl

/-! ### Extractor lemmas, part 2: serializer shapes -/

theorem stringMk_data (s : String) : String.mk s.data = s := by cases s; rfl

theorem skipWs_cons_not (c : Char) (l : List Char) (h : isWs c = false) :
    skipWs (c :: l) = c :: l := by
  simp [skipWs, List.dropWhile_cons, h]

theorem digit_not_ws (c : Char) (h : c.isDigit = true) : isWs c = false := by
  cases hw : isWs c
  · rfl
  · have : ((c = ' ' ∨ c = '\t') ∨ c = '\n') ∨ c = '\r' := by
      simpa [isWs] using hw
    rcases this with ((rfl | rfl) | rfl) | rfl <;> exact absurd h (by decide)

theorem digit_ne (c : Char) (h : c.isDigit = true) :
    ¬ c = 'n' ∧ ¬ c = 't' ∧ ¬ c = 'f' ∧ ¬ c = '"' ∧ ¬ c = '\x7b' ∧
    ¬ c = '[' ∧ ¬ c = ']' ∧ ¬ c = '\x7d' := by
  refine ⟨?_, ?_, ?_, ?_, ?_, ?_, ?_, ?_⟩ <;> (intro h'; subst h'; exact absurd h (by decide))

theorem intChars_shape (n : ℤ) : ∃ d ds, intChars n = d :: ds ∧
    (decide (d = '-') || d.isDigit) = true ∧ isWs d = false ∧
    ¬ d = 'n' ∧ ¬ d = 't' ∧ ¬ d = 'f' ∧ ¬ d = '"' ∧ ¬ d = '\x7b' ∧
    ¬ d = '[' ∧ ¬ d = ']' := by
  rw [intChars]
  split
  · exact ⟨'-', _, rfl, by decide⟩
  · obtain ⟨d, ds, hds⟩ : ∃ d ds, natDigits n.toNat = d :: ds := by
      cases h : natDigits n.toNat with
      | nil => exact absurd h (natDigits_ne_nil _)
      | cons d ds => exact ⟨d, ds, rfl⟩
    have hd : d.isDigit = true := by
      have := natDigits_all_digits n.toNat
      rw [hds] at this
      exact this d (List.mem_cons_self d ds)
    have hne := digit_ne d hd
    exact ⟨d, ds, hds, by simp [hd], digit_not_ws d hd, hne.1, hne.2.1, hne.2.2.1,
      hne.2.2.2.1, hne.2.2.2.2.1, hne.2.2.2.2.2.1, hne.2.2.2.2.2.2.1⟩

/-- Every serialized value starts with a non-whitespace character that is
not a closing bracket. -/
theorem dump_starts (v : Json) : ∃ c cs, dumpChars v = c :: cs ∧
    isWs c = false ∧ ¬ c = ']' := by
  cases v with
  | num n =>
    obtain ⟨d, ds, hds, _, hws, _, _, _, _, _, _, hne⟩ := intChars_shape n
    exact ⟨d, ds, hds, hws, hne⟩
  | bool b =>
    cases b
    · exact ⟨'f', _, rfl, by decide⟩
    · exact ⟨'t', _, rfl, by decide⟩
  | null => exact ⟨'n', _, rfl, by decide⟩
  | str s => exact ⟨'"', _, rfl, by decide⟩
  | arr es => exact ⟨'[', _, rfl, by decide⟩
  | obj kvs => exact ⟨'\x7b', _, rfl, by decide⟩

theorem dump_len_pos (v : Json) : 1 ≤ (dumpChars v).length := by
  obtain ⟨c, cs, h, -, -⟩ := dump_starts v
  rw [h]
  simp

theorem dumpElems_cons_nil (v : Json) : dumpElems [v] = dumpChars v := rfl

theorem dumpElems_cons_cons (v w : Json) (ws : List Json) :
    dumpElems (v :: w :: ws) = dumpChars v ++ ',' :: dumpElems (w :: ws) := rfl

theorem dumpMembers_cons_nil (k : String) (w : Json) :
    dumpMembers [(k, w)] = '"' :: escChars k.data ++ '"' :: ':' :: dumpChars w := rfl

theorem dumpMembers_cons_cons (k : String) (w : Json) (m : String × Json)
    (t : List (String × Json)) :
    dumpMembers ((k, w) :: m :: t) =
      '"' :: escChars k.data ++ '"' :: ':' :: dumpChars w ++ ',' :: dumpMembers (m :: t) := rfl

/-! ### Extractor lemmas, part 3: step forms of the parser

The following functions restate one unfolding step of each mutual parser
function with the whitespace-skip exposed as an argument; each `_succ`
lemma states that the original function takes exactly that step. -/

theorem parseValue_succ (m : ℕ) (cs : List Char) :
    parseValue (m + 1) cs = parseValueBody m (skipWs cs) := by
  rw [parseValue.eq_def]
  rfl

theorem parseElems_succ (m : ℕ) (cs : List Char) :
    parseElems (m + 1) cs =
      match parseValue m cs with
      | none => none
      | some (v, rest) => parseElemsSep m v (skipWs rest) := by
  rw [parseElems.eq_def]
  rfl

theorem parseMembers_succ (m : ℕ) (cs : List Char) :
    parseMembers (m + 1) cs = parseMembersBody m (skipWs cs) := by
  rw [parseMembers.eq_def]
  rfl

/-! ### Extractor lemmas, part 4: the serializer/parser round trip -/

/-- Round trip of the three mutual parser functions over serialized
output, by strong induction on the fuel. -/
theorem parse_dump_mut : ∀ fuel : ℕ,
    (∀ (v : Json) (rest : List Char), (dumpChars v).length < fuel →
      numSafe rest = true →
      parseValue fuel (dumpChars v ++ rest) = some (v, rest)) ∧
    (∀ (v : Json) (vs : List Json) (rest : List Char),
      (dumpElems (v :: vs)).length + 1 < fuel →
      parseElems fuel (dumpElems (v :: vs) ++ ']' :: rest) = some (v :: vs, rest)) ∧
    (∀ (k : String) (w : Json) (t : List (String × Json)) (rest : List Char),
      (dumpMembers ((k, w) :: t)).length + 1 < fuel →
      parseMembers fuel (dumpMembers ((k, w) :: t) ++ '\x7d' :: rest) =
        some ((k, w) :: t, rest)) := by
  intro fuel
  induction fuel using Nat.strongRecOn with
  | ind fuel IH =>
    obtain (rfl | ⟨m, rfl⟩) : fuel = 0 ∨ ∃ m, fuel = m + 1 := by
      cases fuel
      · exact Or.inl rfl
      · exact Or.inr ⟨_, rfl⟩
    · exact ⟨fun v rest h _ => absurd h (by omega),
        fun v vs rest h => absurd h (by omega),
        fun k w t rest h => absurd h (by omega)⟩
    have IHv := (IH m (by omega)).1
    have IHe := (IH m (by omega)).2.1
    have IHm := (IH m (by omega)).2.2
    refine ⟨?_, ?_, ?_⟩
    · -- parseValue round trip
      intro v rest hlen hsafe
      rw [parseValue_succ]
      cases v with
      | null => rfl
      | bool b => cases b <;> rfl
      | num n =>
        obtain ⟨d, ds, hds, hcond, hws, hn, ht, hf, hq, hb, hbr, _⟩ := intChars_shape n
        show parseValueBody m (skipWs (intChars n ++ rest)) = some (.num n, rest)
        rw [hds]
        simp only [List.cons_append]
        rw [skipWs_cons_not d _ hws]
        show (if d = 'n' then _
          else if d = 't' then _
          else if d = 'f' then _
          else if d = '"' then _
          else if d = '\x7b' then _
          else if d = '[' then _
          else if (d = '-' || d.isDigit) then
            Option.map (fun p => (Json.num p.1, p.2)) (parseNum (d :: (ds ++ rest)))
          else none) = some (Json.num n, rest)
        rw [if_neg hn, if_neg ht, if_neg hf, if_neg hq, if_neg hb, if_neg hbr,
          if_pos hcond]
        rw [show d :: (ds ++ rest) = (d :: ds) ++ rest from rfl, ← hds,
          parseNum_dump n rest hsafe]
        rfl
      | str s =>
        rw [show dumpChars (.str s) ++ rest = '"' :: (escChars s.data ++ '"' :: rest)
          from by simp [dumpChars]]
        show (parseStr (escChars s.data ++ '"' :: rest)).map
          (fun p => (Json.str (String.mk p.1), p.2)) = some (.str s, rest)
        rw [parseStr_esc]
        show some (Json.str (String.mk s.data), rest) = some (Json.str s, rest)
        rw [stringMk_data]
      | arr es =>
        rw [show dumpChars (.arr es) ++ rest = '[' :: (dumpElems es ++ ']' :: rest)
          from by simp [dumpChars]]
        show parseValueArr m (skipWs (dumpElems es ++ ']' :: rest)) = some (.arr es, rest)
        cases es with
        | nil => rfl
        | cons v vs =>
          obtain ⟨c0, cs0, hc0, hc0ws, hc0ne⟩ := dump_starts v
          obtain ⟨X, hX⟩ : ∃ X, dumpElems (v :: vs) ++ ']' :: rest = c0 :: X := by
            cases vs with
            | nil => rw [dumpElems_cons_nil, hc0]; exact ⟨_, rfl⟩
            | cons w ws => rw [dumpElems_cons_cons, hc0]; exact ⟨_, rfl⟩
          rw [hX, skipWs_cons_not c0 X hc0ws]
          show (if c0 = ']' then some (Json.arr [], X)
            else (parseElems m (c0 :: X)).map (fun p => (Json.arr p.1, p.2))) = _
          rw [if_neg hc0ne, ← hX]
          have hlen' : (dumpElems (v :: vs)).length + 1 < m := by
            have h2 : (dumpChars (.arr (v :: vs))).length =
                (dumpElems (v :: vs)).length + 2 := by
              simp [dumpChars]
            omega
          rw [IHe v vs rest hlen']
          rfl
      | obj kvs =>
        rw [show dumpChars (.obj kvs) ++ rest = '\x7b' :: (dumpMembers kvs ++ '\x7d' :: rest)
          from by simp [dumpChars]]
        show parseValueObj m (skipWs (dumpMembers kvs ++ '\x7d' :: rest)) =
          some (.obj kvs, rest)
        cases kvs with
        | nil => rfl
        | cons kv t =>
          obtain ⟨k, w⟩ := kv
          obtain ⟨X, hX⟩ : ∃ X, dumpMembers ((k, w) :: t) ++ '\x7d' :: rest = '"' :: X := by
            cases t with
            | nil => rw [dumpMembers_cons_nil]; exact ⟨_, rfl⟩
            | cons m2 t2 => rw [dumpMembers_cons_cons]; exact ⟨_, rfl⟩
          rw [hX]
          show (parseMembers m ('"' :: X)).map (fun p => (Json.obj p.1, p.2)) = _
          rw [← hX]
          have hlen' : (dumpMembers ((k, w) :: t)).length + 1 < m := by
            have h2 : (dumpChars (.obj ((k, w) :: t))).length =
                (dumpMembers ((k, w) :: t)).length + 2 := by
              simp [dumpChars]
            omega
          rw [IHm k w t rest hlen']
          rfl
    · -- parseElems round trip
      intro v vs rest hlen
      rw [parseElems_succ]
      cases vs with
      | nil =>
        rw [dumpElems_cons_nil] at hlen ⊢
        rw [IHv v (']' :: rest) (by omega) (by rfl)]
        rfl
      | cons w ws =>
        have hvpos := dump_len_pos v
        have hlen2 : (dumpElems (v :: w :: ws)).length =
            (dumpChars v).length + 1 + (dumpElems (w :: ws)).length := by
          rw [dumpElems_cons_cons]
          simp
          omega
        rw [dumpElems_cons_cons, List.append_assoc]
        simp only [List.cons_append]
        rw [IHv v (',' :: (dumpElems (w :: ws) ++ ']' :: rest)) (by omega) (by rfl)]
        show parseElemsSep m v (skipWs (',' :: (dumpElems (w :: ws) ++ ']' :: rest))) =
          some (v :: w :: ws, rest)
        show (parseElems m (dumpElems (w :: ws) ++ ']' :: rest)).map
          (fun p => (v :: p.1, p.2)) = _
        rw [IHe w ws rest (by omega)]
        rfl
    · -- parseMembers round trip
      intro k w t rest hlen
      rw [parseMembers_succ]
      cases t with
      | nil =>
        have hlen2 : (dumpMembers [(k, w)]).length =
            (escChars k.data).length + 3 + (dumpChars w).length := by
          rw [dumpMembers_cons_nil]
          simp
          omega
        rw [show dumpMembers [(k, w)] ++ '\x7d' :: rest =
            '"' :: (escChars k.data ++ '"' :: (':' :: (dumpChars w ++ '\x7d' :: rest)))
          from by rw [dumpMembers_cons_nil]; simp]
        show (match parseStr (escChars k.data ++ '"' ::
            (':' :: (dumpChars w ++ '\x7d' :: rest))) with
          | none => none
          | some (k2, r2) => parseMembersKey m k2 (skipWs r2)) = some ([(k, w)], rest)
        rw [parseStr_esc]
        show (match parseValue m (dumpChars w ++ '\x7d' :: rest) with
          | none => none
          | some (v, r4) => parseMembersVal m k.data v (skipWs r4)) = _
        rw [IHv w ('\x7d' :: rest) (by omega) (by rfl)]
        show some ([(String.mk k.data, w)], rest) = some ([(k, w)], rest)
        rw [stringMk_data]
      | cons m2 t2 =>
        have hwpos := dump_len_pos w
        have hlen2 : (dumpMembers ((k, w) :: m2 :: t2)).length =
            (escChars k.data).length + 4 + (dumpChars w).length +
              (dumpMembers (m2 :: t2)).length := by
          rw [dumpMembers_cons_cons]
          simp
          omega
        rw [show dumpMembers ((k, w) :: m2 :: t2) ++ '\x7d' :: rest =
            '"' :: (escChars k.data ++ '"' :: (':' :: (dumpChars w ++
              ',' :: (dumpMembers (m2 :: t2) ++ '\x7d' :: rest))))
          from by rw [dumpMembers_cons_cons]; simp]
        show (match parseStr (escChars k.data ++ '"' ::
            (':' :: (dumpChars w ++ ',' :: (dumpMembers (m2 :: t2) ++ '\x7d' :: rest)))) with
          | none => none
          | some (k2, r2) => parseMembersKey m k2 (skipWs r2)) =
          some ((k, w) :: m2 :: t2, rest)
        rw [parseStr_esc]
        show (match parseValue m (dumpChars w ++
            ',' :: (dumpMembers (m2 :: t2) ++ '\x7d' :: rest)) with
          | none => none
          | some (v, r4) => parseMembersVal m k.data v (skipWs r4)) = _
        rw [IHv w (',' :: (dumpMembers (m2 :: t2) ++ '\x7d' :: rest)) (by omega) (by rfl)]
        show (parseMembers m (dumpMembers (m2 :: t2) ++ '\x7d' :: rest)).map
          (fun p => ((String.mk k.data, w) :: p.1, p.2)) = _
        obtain ⟨k2, w2⟩ := m2
        rw [IHm k2 w2 t2 rest (by omega), stringMk_data]
        rfl

/-- Model of `json.loads` round-trips every serialized value. -/
theorem json_loads_dump (v : Json) : json_loads (dumpChars v) = some v := by
  rw [json_loads]
  have h1 : parseValue (2 * (dumpChars v).length + 2) (dumpChars v) = some (v, []) := by
    have := (parse_dump_mut (2 * (dumpChars v).length + 2)).1 v [] (by omega) rfl
    simpa using this
  rw [h1]
  rfl

/-! ### Extractor lemmas, part 5: stripping and searching -/

theorem dropWhile_all_append (p : Char → Bool) (pre l : List Char)
    (h : ∀ c ∈ pre, p c = true) :
    (pre ++ l).dropWhile p = l.dropWhile p := by
  induction pre with
  | nil => rfl
  | cons a pre ih =>
    simp only [List.cons_append, List.dropWhile_cons,
      h a (List.mem_cons_self a pre), if_true]
    exact ih (fun c hc => h c (List.mem_cons_of_mem a hc))

/-- Stripping removes exactly the surrounding whitespace of a text whose
body starts and ends with non-whitespace. -/
theorem pyStrip_sandwich (pre suf mid : List Char) (a b : Char)
    (hpre : ∀ c ∈ pre, isWs c = true) (hsuf : ∀ c ∈ suf, isWs c = true)
    (ha : isWs a = false) (hb : isWs b = false) :
    pyStrip (pre ++ (a :: (mid ++ [b])) ++ suf) = a :: (mid ++ [b]) := by
  unfold pyStrip
  rw [List.append_assoc, dropWhile_all_append _ pre _ hpre]
  have h1 : ((a :: (mid ++ [b])) ++ suf).dropWhile isWs = a :: ((mid ++ [b]) ++ suf) := by
    simp [List.dropWhile_cons, ha]
  rw [h1]
  have h2 : (a :: ((mid ++ [b]) ++ suf)).reverse =
      suf.reverse ++ (b :: (mid.reverse ++ [a])) := by
    simp
  rw [h2, dropWhile_all_append _ suf.reverse _
    (fun c hc => hsuf c (by simpa using hc))]
  have h3 : (b :: (mid.reverse ++ [a])).dropWhile isWs = b :: (mid.reverse ++ [a]) := by
    simp [List.dropWhile_cons, hb]
  rw [h3]
  simp

theorem pyStrip_eq_self (mid : List Char) (a b : Char)
    (ha : isWs a = false) (hb : isWs b = false) :
    pyStrip (a :: (mid ++ [b])) = a :: (mid ++ [b]) := by
  have := pyStrip_sandwich [] [] mid a b (by simp) (by simp) ha hb
  simpa using this

theorem pyStrip_idem (l : List Char) : pyStrip (pyStrip l) = pyStrip l := by
  unfold pyStrip
  set A := l.dropWhile isWs with hA
  set C := A.reverse.dropWhile isWs with hC
  have hAd : A.dropWhile isWs = A := by
    rw [hA]
    exact List.dropWhile_idempotent _ _
  have h1 : C.reverse.dropWhile isWs = C.reverse := by
    obtain ⟨T, hT⟩ : ∃ T, C.reverse ++ T = A := by
      have hs : List.IsSuffix C A.reverse := by
        rw [hC]
        exact List.dropWhile_suffix _
      obtain ⟨S, hS⟩ := hs
      refine ⟨S.reverse, ?_⟩
      have h := congrArg List.reverse hS
      simpa [List.reverse_append] using h
    cases hCr : C.reverse with
    | nil => rfl
    | cons b B =>
      have hAeq : A = b :: (B ++ T) := by
        rw [← hT, hCr]
        simp
      have hbw : isWs b = false := by
        cases hbw2 : isWs b
        · rfl
        · rw [hAeq, List.dropWhile_cons, if_pos (by simp [hbw2])] at hAd
          have hlen := congrArg List.length hAd
          have hle : ((B ++ T).dropWhile isWs).length ≤ (B ++ T).length :=
            ((List.dropWhile_suffix isWs).sublist).length_le
          rw [List.length_cons] at hlen
          omega
      simp [List.dropWhile_cons, hbw]
  rw [h1, List.reverse_reverse, hC, List.dropWhile_idempotent _ _]

theorem findSub_head_notMem (p : Char) (ps cs : List Char) (h : p ∉ cs) :
    findSub (p :: ps) cs = none := by
  induction cs with
  | nil => rfl
  | cons c cs ih =>
    have hpc : (p = c) = False := by
      simp only [eq_iff_iff, iff_false]
      intro hcon
      exact h (hcon ▸ List.mem_cons_self c cs)
    have hpre : isPre (p :: ps) (c :: cs) = false := by
      simp [isPre, hpc]
    rw [findSub, if_neg (by simp [hpre]), ih (fun hc => h (List.mem_cons_of_mem c hc))]
    rfl

theorem findSub_isPre (pat : List Char) (c : Char) (cs : List Char)
    (h : isPre pat (c :: cs) = true) : findSub pat (c :: cs) = some 0 := by
  rw [findSub, if_pos h]

theorem findSub_append_shift (p : Char) (ps l m : List Char) (h : p ∉ l) :
    findSub (p :: ps) (l ++ m) = (findSub (p :: ps) m).map (· + l.length) := by
  induction l with
  | nil =>
    cases hf : findSub (p :: ps) m <;> simp [hf]
  | cons c l ih =>
    have hpc : (p = c) = False := by
      simp only [eq_iff_iff, iff_false]
      intro hcon
      exact h (hcon ▸ List.mem_cons_self c l)
    have hpre : isPre (p :: ps) (c :: (l ++ m)) = false := by
      simp [isPre, hpc]
    rw [List.cons_append, findSub, if_neg (by simp [hpre]),
      ih (fun hc => h (List.mem_cons_of_mem c hc))]
    cases hf : findSub (p :: ps) m <;> simp [hf]
    omega

/-- The parser rejects any text whose first non-whitespace character can
begin no JSON value. -/
theorem parseValue_badStart (f : ℕ) (c : Char) (rest : List Char)
    (hn : ¬ c = 'n') (ht : ¬ c = 't') (hf : ¬ c = 'f') (hq : ¬ c = '"')
    (hb : ¬ c = '\x7b') (hbr : ¬ c = '[') (hm : ¬ c = '-') (hd : c.isDigit = false)
    (hw : isWs c = false) :
    parseValue f (c :: rest) = none := by
  cases f with
  | zero => rfl
  | succ m =>
    rw [parseValue_succ, skipWs_cons_not c rest hw]
    show (if c = 'n' then _
      else if c = 't' then _
      else if c = 'f' then _
      else if c = '"' then _
      else if c = '\x7b' then _
      else if c = '[' then _
      else if (c = '-' || c.isDigit) then
        Option.map (fun p => (Json.num p.1, p.2)) (parseNum (c :: rest))
      else none) = none
    rw [if_neg hn, if_neg ht, if_neg hf, if_neg hq, if_neg hb, if_neg hbr,
      if_neg (by simp [hm, hd])]

theorem json_loads_badStart (cs : List Char) (c : Char) (rest : List Char)
    (hcs : cs = c :: rest)
    (h : (¬ c = 'n') ∧ (¬ c = 't') ∧ (¬ c = 'f') ∧ (¬ c = '"') ∧
      (¬ c = '\x7b') ∧ (¬ c = '[') ∧ (¬ c = '-') ∧ c.isDigit = false ∧
      isWs c = false) :
    json_loads cs = none := by
  obtain ⟨hn, ht, hf, hq, hb, hbr, hm, hd, hw⟩ := h
  subst hcs
  rw [json_loads, parseValue_badStart _ c rest hn ht hf hq hb hbr hm hd hw]

/-! ### Claims C8 and C10 -/

/-- Claim C8 (amended): `extract_json_from_response` is a total function
(never raises, by construction of the model); for any input containing no
`'\x7b'` and no backtick whose trimmed form does not parse directly as a
(non-null) JSON value, it returns `none`; and the preview logged by
`clean_and_parse_json` on failure is at most 200 characters.  (The
original claim fails because an input with no brace can still parse
directly: `extract("5")` returns `5`, not `None`.) -/
theorem C8_no_brace :
    (∀ cs : List Char, '\x7b' ∉ cs → '\x60' ∉ cs →
      (∀ v, json_loads (pyStrip cs) = some v → v = Json.null) →
      extract_json_from_response cs = none) ∧
    (∀ (s : String) (p : String), (clean_and_parse_json s).2 = some p →
      p.length ≤ 200) := by
  constructor
  · intro cs hbrace hbt hdir
    have h2 : tryFence cs = none := by
      have hf : findSub fenceJson cs = none := findSub_head_notMem _ _ cs hbt
      rw [tryFence, hf]
      rfl
    have h3 : tryBraces cs = none := by
      have hf : findSub ['\x7b'] cs = none := findSub_head_notMem _ _ cs hbrace
      rw [tryBraces, hf]
    rcases hd : json_loads (pyStrip cs) with _ | v
    · have ht : tryDirect cs = none := by rw [tryDirect, hd]
      rw [extract_json_from_response, ht, h2, h3]
    · have hv := hdir v hd
      subst hv
      have ht : tryDirect cs = some none := by rw [tryDirect, hd]; rfl
      rw [extract_json_from_response, ht]
  · intro s p hp
    cases hext : extract_json_from_response (pyStrip s.data) with
    | some v =>
      rw [clean_and_parse_json] at hp
      simp only [hext] at hp
      cases hp
    | none =>
      rw [clean_and_parse_json] at hp
      simp only [hext] at hp
      have hp' : p = String.mk ((pyStrip s.data).take 200) := by
        cases hp
        rfl
      subst hp'
      show (String.mk ((pyStrip s.data).take 200)).data.length ≤ 200
      simp

/-- Witness for `C8_no_brace` at a concrete brace-free input. -/
theorem C8_no_brace_witness :
    extract_json_from_response ("no json here".data) = none ∧
    ("no json here" : String).length ≤ 200 :=
  ⟨C8_no_brace.1 ("no json here".data) (by decide) (by decide)
      (by
        intro v h
        rw [show json_loads (pyStrip ("no json here".data)) = none from rfl] at h
        cases h),
    C8_no_brace.2 "no json here" "no json here" rfl⟩

/-- Claim C8, counterexample: the input `"5"` contains no brace, yet
`extract_json_from_response` returns the parsed value `5` (strategy 1
succeeds), not the "no structured result found" outcome `None`. -/
theorem C8_counterexample :
    ('\x7b' ∉ "5".data) ∧
    extract_json_from_response ("5".data) = some (Json.num 5) ∧
    some (Json.num 5) ≠ (none : Option Json) := by
  refine ⟨by decide, rfl, by simp⟩

/-- Claim C10: when the trimmed input parses directly as the JSON value
`null`, `extract_json_from_response` returns `None` — the same value that
signals extraction failure — and `clean_and_parse_json` therefore reports
a parse failure (logging its preview) even though parsing succeeded. -/
theorem C10_null_conflation (s : String)
    (h : json_loads (pyStrip s.data) = some Json.null) :
    extract_json_from_response (pyStrip s.data) = none ∧
    (clean_and_parse_json s).1 = none ∧
    ((clean_and_parse_json s).2).isSome = true := by
  have hd : tryDirect (pyStrip s.data) = some none := by
    rw [tryDirect, pyStrip_idem, h]
    rfl
  have he : extract_json_from_response (pyStrip s.data) = none := by
    rw [extract_json_from_response, hd]
  refine ⟨he, ?_, ?_⟩
  · rw [clean_and_parse_json]
    simp only [he]
  · rw [clean_and_parse_json]
    simp only [he]
    rfl

/-- Witness for `C10_null_conflation` at the literal input `"null"`. -/
theorem C10_null_conflation_witness :
    extract_json_from_response (pyStrip ("null".data)) = none ∧
    (clean_and_parse_json "null").1 = none ∧
    ((clean_and_parse_json "null").2).isSome = true :=
  C10_null_conflation "null" rfl

/-! ### Extractor lemmas, part 6: the naive brace scan over serialized objects -/

theorem braceEnd_cons_nonbrace (c : Char) (cs : List Char) (d : ℤ)
    (h : nonBrace c) :
    braceEnd (c :: cs) d = (braceEnd cs d).map (· + 1) := by
  rw [braceEnd.eq_def]
  simp only [if_neg h.1, if_neg h.2]

theorem braceEnd_cons_open (rest : List Char) (d : ℤ) :
    braceEnd ('\x7b' :: rest) d = (braceEnd rest (d + 1)).map (· + 1) := by
  rw [braceEnd.eq_def]
  rfl

theorem braceEnd_cons_close (rest : List Char) (d : ℤ) :
    braceEnd ('\x7d' :: rest) d =
      if d - 1 = 0 then some 0 else (braceEnd rest (d - 1)).map (· + 1) := by
  rw [braceEnd.eq_def]
  rfl

theorem braceEnd_nonbrace (X rest : List Char) (d : ℤ)
    (h : ∀ c ∈ X, nonBrace c) :
    braceEnd (X ++ rest) d = (braceEnd rest d).map (· + (X.length : ℕ)) := by
  induction X with
  | nil => cases hb : braceEnd rest d <;> simp [hb]
  | cons c X ih =>
    rw [List.cons_append, braceEnd_cons_nonbrace c _ d (h c (List.mem_cons_self c X)),
      ih (fun c' hc' => h c' (List.mem_cons_of_mem c hc'))]
    cases hb : braceEnd rest d <;> simp [hb]
    omega

theorem escChar_chars (a : Char) : ∀ c ∈ escChar a,
    c = '\\' ∨ c = '"' ∨ c = 'n' ∨ c = 't' ∨ c = 'r' ∨ c = a := by
  intro c hc
  by_cases h1 : a = '"'
  · subst h1
    rw [show escChar '"' = ['\\', '"'] from rfl] at hc
    simp at hc
    rcases hc with rfl | rfl
    · exact Or.inl rfl
    · exact Or.inr (Or.inl rfl)
  by_cases h2 : a = '\\'
  · subst h2
    rw [show escChar '\\' = ['\\', '\\'] from rfl] at hc
    simp at hc
    subst hc
    exact Or.inl rfl
  by_cases h3 : a = '\n'
  · subst h3
    rw [show escChar '\n' = ['\\', 'n'] from rfl] at hc
    simp at hc
    rcases hc with rfl | rfl
    · exact Or.inl rfl
    · exact Or.inr (Or.inr (Or.inl rfl))
  by_cases h4 : a = '\t'
  · subst h4
    rw [show escChar '\t' = ['\\', 't'] from rfl] at hc
    simp at hc
    rcases hc with rfl | rfl
    · exact Or.inl rfl
    · exact Or.inr (Or.inr (Or.inr (Or.inl rfl)))
  by_cases h5 : a = '\r'
  · subst h5
    rw [show escChar '\r' = ['\\', 'r'] from rfl] at hc
    simp at hc
    rcases hc with rfl | rfl
    · exact Or.inl rfl
    · exact Or.inr (Or.inr (Or.inr (Or.inr (Or.inl rfl))))
  · rw [escChar, if_neg h1, if_neg h2, if_neg h3, if_neg h4, if_neg h5] at hc
    simp at hc
    subst hc
    exact Or.inr (Or.inr (Or.inr (Or.inr (Or.inr rfl))))

theorem escChars_nonbrace (l : List Char) (h : braceFreeChars l = true) :
    ∀ c ∈ escChars l, nonBrace c := by
  induction l with
  | nil =>
    intro c hc
    simp [escChars] at hc
  | cons a l ih =>
    rw [braceFreeChars, List.all_cons, Bool.and_eq_true] at h
    have ha : nonBrace a := by
      constructor <;> intro hc <;> subst hc <;> simp at h
    intro c hc
    rw [escChars] at hc
    rcases List.mem_append.mp hc with hc1 | hc2
    · rcases escChar_chars a c hc1 with rfl | rfl | rfl | rfl | rfl | rfl
      · exact ⟨by decide, by decide⟩
      · exact ⟨by decide, by decide⟩
      · exact ⟨by decide, by decide⟩
      · exact ⟨by decide, by decide⟩
      · exact ⟨by decide, by decide⟩
      · exact ha
    · exact ih h.2 c hc2

theorem intChars_nonbrace (n : ℤ) : ∀ c ∈ intChars n, nonBrace c := by
  intro c hc
  rw [intChars] at hc
  have hdig : ∀ c', c'.isDigit = true → nonBrace c' := fun c' h' =>
    ⟨(digit_ne c' h').2.2.2.2.1, (digit_ne c' h').2.2.2.2.2.2.2⟩
  split at hc
  · rcases List.mem_cons.mp hc with rfl | hc'
    · exact ⟨by decide, by decide⟩
    · exact hdig c (natDigits_all_digits _ c hc')
  · exact hdig c (natDigits_all_digits _ c hc)

/-- Scanning the serialization of a brace-free-strings value from any
positive depth passes over it without triggering the stop and counts its
full length. -/
theorem brace_run_mut : ∀ n : ℕ,
    (∀ v, (dumpChars v).length ≤ n → braceFreeJ v = true → ∀ (d : ℤ) rest, 1 ≤ d →
      braceEnd (dumpChars v ++ rest) d =
        (braceEnd rest d).map (· + (dumpChars v).length)) ∧
    (∀ es, (dumpElems es).length ≤ n → braceFreeL es = true → ∀ (d : ℤ) rest, 1 ≤ d →
      braceEnd (dumpElems es ++ rest) d =
        (braceEnd rest d).map (· + (dumpElems es).length)) ∧
    (∀ kvs, (dumpMembers kvs).length ≤ n → braceFreeM kvs = true → ∀ (d : ℤ) rest, 1 ≤ d →
      braceEnd (dumpMembers kvs ++ rest) d =
        (braceEnd rest d).map (· + (dumpMembers kvs).length)) := by
  intro n
  induction n using Nat.strongRecOn with
  | ind n IH =>
    have Hv : ∀ v, (dumpChars v).length ≤ n → braceFreeJ v = true →
        ∀ (d : ℤ) rest, 1 ≤ d →
        braceEnd (dumpChars v ++ rest) d =
          (braceEnd rest d).map (· + (dumpChars v).length) := by
      intro v hlen hbf d rest hd
      cases v with
      | null => exact braceEnd_nonbrace _ rest d (by decide)
      | bool b =>
        cases b
        · exact braceEnd_nonbrace _ rest d (by decide)
        · exact braceEnd_nonbrace _ rest d (by decide)
      | num m => exact braceEnd_nonbrace _ rest d (intChars_nonbrace m)
      | str s =>
        refine braceEnd_nonbrace _ rest d ?_
        intro c hc
        rw [show dumpChars (.str s) = '"' :: (escChars s.data ++ ['"']) from rfl] at hc
        rcases List.mem_cons.mp hc with rfl | hc'
        · exact ⟨by decide, by decide⟩
        rcases List.mem_append.mp hc' with hc2 | hc3
        · exact escChars_nonbrace s.data (by simpa [braceFreeJ] using hbf) c hc2
        · rw [List.mem_singleton] at hc3
          subst hc3
          exact ⟨by decide, by decide⟩
      | arr es =>
        have hlen2 : (dumpChars (.arr es)).length = (dumpElems es).length + 2 := by
          simp [dumpChars]
        have hbf' : braceFreeL es = true := by simpa [braceFreeJ] using hbf
        rw [show dumpChars (.arr es) ++ rest = '[' :: (dumpElems es ++ (']' :: rest))
          from by simp [dumpChars]]
        rw [braceEnd_cons_nonbrace _ _ _ ⟨by decide, by decide⟩]
        have hn1 : n - 1 < n := by omega
        rw [(IH (n - 1) hn1).2.1 es (by omega) hbf' d (']' :: rest) hd]
        rw [braceEnd_cons_nonbrace _ _ _ ⟨by decide, by decide⟩]
        cases hb : braceEnd rest d <;> simp [hb, hlen2]
        omega
      | obj kvs =>
        have hlen2 : (dumpChars (.obj kvs)).length = (dumpMembers kvs).length + 2 := by
          simp [dumpChars]
        have hbf' : braceFreeM kvs = true := by simpa [braceFreeJ] using hbf
        rw [show dumpChars (.obj kvs) ++ rest =
            '\x7b' :: (dumpMembers kvs ++ ('\x7d' :: rest)) from by simp [dumpChars]]
        rw [braceEnd_cons_open]
        have hn1 : n - 1 < n := by omega
        rw [(IH (n - 1) hn1).2.2 kvs (by omega) hbf' (d + 1) ('\x7d' :: rest) (by omega)]
        rw [braceEnd_cons_close, if_neg (show ¬ d + 1 - 1 = 0 from by omega),
          show d + 1 - 1 = d from by omega]
        cases hb : braceEnd rest d <;> simp [hb, hlen2]
        omega
    have He : ∀ es, (dumpElems es).length ≤ n → braceFreeL es = true →
        ∀ (d : ℤ) rest, 1 ≤ d →
        braceEnd (dumpElems es ++ rest) d =
          (braceEnd rest d).map (· + (dumpElems es).length) := by
      intro es hlen hbf d rest hd
      cases es with
      | nil => cases hb : braceEnd rest d <;> simp [dumpElems, hb]
      | cons v vs =>
        have hbf' : braceFreeJ v = true ∧ braceFreeL vs = true := by
          have := hbf
          rw [braceFreeL, Bool.and_eq_true] at this
          exact this
        cases vs with
        | nil =>
          rw [dumpElems_cons_nil] at hlen ⊢
          exact Hv v hlen hbf'.1 d rest hd
        | cons w ws =>
          have hvpos := dump_len_pos v
          have hlen2 : (dumpElems (v :: w :: ws)).length =
              (dumpChars v).length + 1 + (dumpElems (w :: ws)).length := by
            rw [dumpElems_cons_cons]
            simp
            omega
          rw [dumpElems_cons_cons, List.append_assoc]
          rw [Hv v (by omega) hbf'.1 d _ hd]
          rw [List.cons_append,
            braceEnd_cons_nonbrace _ _ _ ⟨by decide, by decide⟩]
          have hn1 : n - 1 < n := by omega
          rw [(IH (n - 1) hn1).2.1 (w :: ws) (by omega) hbf'.2 d rest hd]
          cases hb : braceEnd rest d <;> simp [hb, hlen2]
          omega
    have Hm : ∀ kvs, (dumpMembers kvs).length ≤ n → braceFreeM kvs = true →
        ∀ (d : ℤ) rest, 1 ≤ d →
        braceEnd (dumpMembers kvs ++ rest) d =
          (braceEnd rest d).map (· + (dumpMembers kvs).length) := by
      intro kvs hlen hbf d rest hd
      cases kvs with
      | nil => cases hb : braceEnd rest d <;> simp [dumpMembers, hb]
      | cons kv t =>
        obtain ⟨k, w⟩ := kv
        have hbf' : braceFreeChars k.data = true ∧ braceFreeJ w = true ∧
            braceFreeM t = true := by
          have := hbf
          rw [braceFreeM, Bool.and_eq_true, Bool.and_eq_true] at this
          exact ⟨this.1.1, this.1.2, this.2⟩
        have hkeyfacts : ∀ c ∈ '"' :: (escChars k.data ++ ['"', ':']), nonBrace c := by
          intro c hc
          rcases List.mem_cons.mp hc with rfl | hc'
          · exact ⟨by decide, by decide⟩
          rcases List.mem_append.mp hc' with hc2 | hc3
          · exact escChars_nonbrace k.data hbf'.1 c hc2
          · rcases List.mem_cons.mp hc3 with rfl | hc4
            · exact ⟨by decide, by decide⟩
            · rw [List.mem_singleton] at hc4
              subst hc4
              exact ⟨by decide, by decide⟩
        have hkeylen : ('"' :: (escChars k.data ++ ['"', ':'])).length =
            (escChars k.data).length + 3 := by simp
        cases t with
        | nil =>
          have hshape : dumpMembers [(k, w)] ++ rest =
              ('"' :: (escChars k.data ++ ['"', ':'])) ++ (dumpChars w ++ rest) := by
            rw [dumpMembers_cons_nil]
            simp
          have hlen2 : (dumpMembers [(k, w)]).length =
              (escChars k.data).length + 3 + (dumpChars w).length := by
            rw [dumpMembers_cons_nil]
            simp
            omega
          rw [hshape, braceEnd_nonbrace _ _ d hkeyfacts,
            Hv w (by omega) hbf'.2.1 d rest hd]
          cases hb : braceEnd rest d <;> simp [hb, hlen2, hkeylen]
          omega
        | cons m2 t2 =>
          have hwpos := dump_len_pos w
          have hshape : dumpMembers ((k, w) :: m2 :: t2) ++ rest =
              ('"' :: (escChars k.data ++ ['"', ':'])) ++
                (dumpChars w ++ (',' :: (dumpMembers (m2 :: t2) ++ rest))) := by
            rw [dumpMembers_cons_cons]
            simp
          have hlen2 : (dumpMembers ((k, w) :: m2 :: t2)).length =
              (escChars k.data).length + 4 + (dumpChars w).length +
                (dumpMembers (m2 :: t2)).length := by
            rw [dumpMembers_cons_cons]
            simp
            omega
          rw [hshape, braceEnd_nonbrace _ _ d hkeyfacts,
            Hv w (by omega) hbf'.2.1 d _ hd,
            braceEnd_cons_nonbrace _ _ _ ⟨by decide, by decide⟩]
          have hn1 : n - 1 < n := by omega
          rw [(IH (n - 1) hn1).2.2 (m2 :: t2) (by omega) hbf'.2.2 d rest hd]
          cases hb : braceEnd rest d <;> simp [hb, hlen2, hkeylen]
          omega
    exact ⟨Hv, He, Hm⟩

/-- Strategy 3's brace scan, started at the first character of a
serialized brace-free-strings object, stops exactly at its final brace. -/
theorem braceEnd_dump_obj (kvs : List (String × Json)) (h : braceFreeM kvs = true)
    (post : List Char) :
    braceEnd (dumpChars (.obj kvs) ++ post) 0 =
      some ((dumpChars (.obj kvs)).length - 1) := by
  have hlen2 : (dumpChars (.obj kvs)).length = (dumpMembers kvs).length + 2 := by
    simp [dumpChars]
  rw [show dumpChars (.obj kvs) ++ post =
      '\x7b' :: (dumpMembers kvs ++ ('\x7d' :: post)) from by simp [dumpChars]]
  rw [braceEnd_cons_open, show (0 : ℤ) + 1 = 1 from by norm_num]
  have hstop : braceEnd ('\x7d' :: post) 1 = some 0 := by
    rw [braceEnd_cons_close, if_pos (by norm_num)]
  rw [(brace_run_mut (dumpMembers kvs).length).2.2 kvs (le_refl _) h 1
    ('\x7d' :: post) (by omega), hstop]
  simp [hlen2]

/-! ### Claim C5 -/

/-- Claim C5, counterexample: the object `o = {"a": "}"}` is JSON-serializable
and its serialization round-trips through `json.loads`, but when embedded in
prose with exactly one balanced top-level brace region (JSON-aware), `extract`
returns `None`: the naive brace count of strategy 3 stops at the `'\x7d'`
inside the string literal, the truncated slice fails to parse, and no other
strategy applies. -/
theorem C5_counterexample :
    ("see \x7b\"a\":\"\x7d\"\x7d ok").data =
      "see ".data ++ dumpChars (.obj [("a", .str "\x7d")]) ++ " ok".data ∧
    json_loads (dumpChars (.obj [("a", .str "\x7d")])) =
      some (.obj [("a", .str "\x7d")]) ∧
    extract_json_from_response (("see \x7b\"a\":\"\x7d\"\x7d ok").data) = none ∧
    (none : Option Json) ≠ some (Json.obj [("a", .str "\x7d")]) := by
  refine ⟨rfl, json_loads_dump _, rfl, by simp⟩

/-- Claim C5 (amended): for any JSON object `o` (`Json.obj kvs`),
(a) `extract` applied to the bare serialization of `o` returns `o`;
(b) `extract` applied to the serialization wrapped in a ```` ```json ````
fence returns `o`, provided the serialization contains no backtick;
(c) `extract` applied to the serialization surrounded by prose returns
`o`, provided the prose before it contains no `'\x7b'`, the whole text
contains no backtick, no string inside `o` contains a brace character,
and the whole trimmed text does not itself parse as JSON (the
counterexamples force each proviso). -/
theorem C5_round_trip :
    (∀ kvs : List (String × Json),
      extract_json_from_response (dumpChars (.obj kvs)) = some (.obj kvs)) ∧
    (∀ kvs : List (String × Json), '\x60' ∉ dumpChars (.obj kvs) →
      extract_json_from_response (fenceOpen ++ dumpChars (.obj kvs) ++ fenceClose) =
        some (.obj kvs)) ∧
    (∀ (kvs : List (String × Json)) (pre post : List Char),
      '\x7b' ∉ pre → '\x60' ∉ pre ++ dumpChars (.obj kvs) ++ post →
      braceFreeM kvs = true →
      json_loads (pyStrip (pre ++ dumpChars (.obj kvs) ++ post)) = none →
      extract_json_from_response (pre ++ dumpChars (.obj kvs) ++ post) =
        some (.obj kvs)) := by
  refine ⟨?_, ?_, ?_⟩
  · -- (a) bare
    intro kvs
    have hstrip : pyStrip (dumpChars (.obj kvs)) = dumpChars (.obj kvs) := by
      rw [show dumpChars (.obj kvs) = '\x7b' :: (dumpMembers kvs ++ ['\x7d']) from rfl]
      exact pyStrip_eq_self _ _ _ (by decide) (by decide)
    have ht : tryDirect (dumpChars (.obj kvs)) = some (some (.obj kvs)) := by
      rw [tryDirect, hstrip, json_loads_dump]
      rfl
    rw [extract_json_from_response, ht]
  · -- (b) fenced
    intro kvs hbt
    rw [List.append_assoc]
    have h1 : json_loads
        (pyStrip (fenceOpen ++ (dumpChars (.obj kvs) ++ fenceClose))) = none := by
      have hshape : fenceOpen ++ (dumpChars (.obj kvs) ++ fenceClose) =
          '\x60' :: ((['\x60', '\x60', 'j', 's', 'o', 'n', '\n'] ++
            (dumpChars (.obj kvs) ++ ['\n', '\x60', '\x60'])) ++ ['\x60']) := by
        simp [fenceOpen, fenceClose]
      have hstrip : pyStrip (fenceOpen ++ (dumpChars (.obj kvs) ++ fenceClose)) =
          '\x60' :: ((['\x60', '\x60', 'j', 's', 'o', 'n', '\n'] ++
            (dumpChars (.obj kvs) ++ ['\n', '\x60', '\x60'])) ++ ['\x60']) := by
        rw [hshape]
        exact pyStrip_eq_self _ _ _ (by decide) (by decide)
      rw [hstrip]
      exact json_loads_badStart _ '\x60' _ rfl (by decide)
    have ht : tryDirect (fenceOpen ++ (dumpChars (.obj kvs) ++ fenceClose)) = none := by
      rw [tryDirect, h1]
    have hfind : findSub fenceJson (fenceOpen ++ (dumpChars (.obj kvs) ++ fenceClose)) =
        some 0 := by
      show findSub fenceJson ('\x60' :: (['\x60', '\x60', 'j', 's', 'o', 'n', '\n'] ++
        (dumpChars (.obj kvs) ++ fenceClose))) = some 0
      exact findSub_isPre _ _ _ rfl
    have hfind3 : findSub fence3 (fenceOpen ++ (dumpChars (.obj kvs) ++ fenceClose)) =
        some 0 := by
      show findSub fence3 ('\x60' :: (['\x60', '\x60', 'j', 's', 'o', 'n', '\n'] ++
        (dumpChars (.obj kvs) ++ fenceClose))) = some 0
      exact findSub_isPre _ _ _ rfl
    have hdrop : (fenceOpen ++ (dumpChars (.obj kvs) ++ fenceClose)).drop (0 + 7) =
        '\n' :: (dumpChars (.obj kvs) ++ fenceClose) := rfl
    have hnotmem : '\x60' ∉ '\n' :: (dumpChars (.obj kvs) ++ ['\n']) := by
      intro hmem
      rcases List.mem_cons.mp hmem with h | h
      · simp at h
      rcases List.mem_append.mp h with h | h
      · exact hbt h
      · rw [List.mem_singleton] at h
        simp at h
    have hfind3' : findSub fence3 ('\n' :: (dumpChars (.obj kvs) ++ fenceClose)) =
        some ((dumpChars (.obj kvs)).length + 2) := by
      have hsh : '\n' :: (dumpChars (.obj kvs) ++ fenceClose) =
          ('\n' :: (dumpChars (.obj kvs) ++ ['\n'])) ++ ['\x60', '\x60', '\x60'] := by
        simp [fenceClose]
      rw [hsh, show fence3 = '\x60' :: ['\x60', '\x60'] from rfl,
        findSub_append_shift '\x60' ['\x60', '\x60'] _ _ hnotmem]
      rw [show findSub ('\x60' :: ['\x60', '\x60']) ['\x60', '\x60', '\x60'] = some 0
        from rfl]
      simp
    have htake : ('\n' :: (dumpChars (.obj kvs) ++ fenceClose)).take
        ((dumpChars (.obj kvs)).length + 2) = '\n' :: (dumpChars (.obj kvs) ++ ['\n']) := by
      have hsh : '\n' :: (dumpChars (.obj kvs) ++ fenceClose) =
          ('\n' :: (dumpChars (.obj kvs) ++ ['\n'])) ++ ['\x60', '\x60', '\x60'] := by
        simp [fenceClose]
      have hlenc : ('\n' :: (dumpChars (.obj kvs) ++ ['\n'])).length =
          (dumpChars (.obj kvs)).length + 2 := by simp
      rw [hsh, ← hlenc, List.take_left]
    have hstripC : pyStrip ('\n' :: (dumpChars (.obj kvs) ++ ['\n'])) =
        dumpChars (.obj kvs) := by
      have hsh2 : '\n' :: (dumpChars (.obj kvs) ++ ['\n']) =
          ['\n'] ++ ('\x7b' :: (dumpMembers kvs ++ ['\x7d'])) ++ ['\n'] := by
        rw [show dumpChars (.obj kvs) = '\x7b' :: (dumpMembers kvs ++ ['\x7d']) from rfl]
        simp
      rw [hsh2, pyStrip_sandwich _ _ _ _ _ (by decide) (by decide) (by decide) (by decide)]
      rfl
    have hfence : tryFence (fenceOpen ++ (dumpChars (.obj kvs) ++ fenceClose)) =
        some (some (.obj kvs)) := by
      rw [tryFence, hfind, hfind3]
      simp only [Option.isSome_some, Bool.and_self, if_true]
      simp only [hdrop, hfind3', htake, hstripC, json_loads_dump]
      rfl
    rw [extract_json_from_response, ht, hfence]
  · -- (c) surrounded by prose
    intro kvs pre post hpre hbt hbf hdirect
    have ht : tryDirect (pre ++ dumpChars (.obj kvs) ++ post) = none := by
      rw [tryDirect, hdirect]
    have hfj : findSub fenceJson (pre ++ dumpChars (.obj kvs) ++ post) = none :=
      findSub_head_notMem _ _ _ hbt
    have hfence : tryFence (pre ++ dumpChars (.obj kvs) ++ post) = none := by
      rw [tryFence, hfj]
      rfl
    have hfind : findSub ['\x7b'] (pre ++ dumpChars (.obj kvs) ++ post) =
        some pre.length := by
      rw [List.append_assoc, findSub_append_shift '\x7b' [] pre _ hpre]
      rw [show findSub ['\x7b'] (dumpChars (.obj kvs) ++ post) = some 0 from by
        show findSub ['\x7b'] ('\x7b' :: (dumpMembers kvs ++ ['\x7d'] ++ post)) = some 0
        exact findSub_isPre _ _ _ rfl]
      simp
    have hdrop : (pre ++ dumpChars (.obj kvs) ++ post).drop pre.length =
        dumpChars (.obj kvs) ++ post := by
      rw [List.append_assoc]
      exact List.drop_left pre _
    have hbe := braceEnd_dump_obj kvs hbf post
    have hlenpos := dump_len_pos (.obj kvs)
    have htake : (dumpChars (.obj kvs) ++ post).take
        ((dumpChars (.obj kvs)).length - 1 + 1) = dumpChars (.obj kvs) := by
      rw [show (dumpChars (.obj kvs)).length - 1 + 1 = (dumpChars (.obj kvs)).length
        from by omega]
      exact List.take_left _ _
    have hbraces : tryBraces (pre ++ dumpChars (.obj kvs) ++ post) =
        some (some (.obj kvs)) := by
      rw [tryBraces]
      simp only [hfind, hdrop, hbe, htake, json_loads_dump]
      rfl
    rw [extract_json_from_response, ht, hfence, hbraces]

/-- Witness for `C5_round_trip` at the concrete object
`{"a": "b"}` in all three presentations. -/
theorem C5_round_trip_witness :
    extract_json_from_response (dumpChars (.obj [("a", .str "b")])) =
      some (.obj [("a", .str "b")]) ∧
    extract_json_from_response
      (fenceOpen ++ dumpChars (.obj [("a", .str "b")]) ++ fenceClose) =
      some (.obj [("a", .str "b")]) ∧
    extract_json_from_response
      ("the result ".data ++ dumpChars (.obj [("a", .str "b")]) ++ " done".data) =
      some (.obj [("a", .str "b")]) :=
  ⟨C5_round_trip.1 [("a", .str "b")],
   C5_round_trip.2.1 [("a", .str "b")] (by decide),
   C5_round_trip.2.2 [("a", .str "b")] ("the result ".data) (" done".data)
     (by decide) (by decide) (by decide) rfl⟩

end MetaphorAgents
